import Mathlib

/-!
# Verification of the PathGeneration interpolator and pursuit simulator

Shallow embedding of `PathStructuresBezier.py` (Catmull-Rom/Bezier
arc-length interpolator, heading interpolation) and `Robot.py`
(curvature pass, ideal and pure-pursuit controllers) over the reals.

Modelling conventions:
* Python floats are modelled as real numbers.
* Python runtime failures (`IndexError`, `NameError` on an unbound
  local, `ZeroDivisionError` on integer division, `AssertionError`)
  are modelled by `Option`-valued functions returning `none`.
* Unbounded `while` loops are given a fuel parameter; a loop that
  does not finish within its fuel returns `none` (for loops whose
  iteration count is statically bounded, the fuel is chosen large
  enough to be unreachable, so the embedding agrees with the source
  on every input on which the source terminates).
* `random.triangular` noise is an arbitrary input stream: theorems
  quantify over all possible noise values.
-/

noncomputable section

open Real

namespace PathGen

/-! ## Utility helpers (the `Utility` module is not part of the sources) -/

/-- Modelled from the spec: `Utility.distance`, the Euclidean distance
between `(x1, y1)` and `(x2, y2)` (the spec calls every use of it
"Euclidean distance"; the `Utility` module itself is not in `src/`). -/
def Utility.distance (x1 y1 x2 y2 : ℝ) : ℝ :=
  Real.sqrt ((x2 - x1) ^ 2 + (y2 - y1) ^ 2)

/-- Modelled from the spec: `Utility.hypo`, the length `|(dx, dy)|` of a
vector, used by the interpolator as the local path speed `|gradient|`. -/
def Utility.hypo (dx dy : ℝ) : ℝ :=
  Real.sqrt (dx ^ 2 + dy ^ 2)

/-- Modelled from the spec: `Utility.clamp v lo hi` restricts `v` to the
interval `[lo, hi]` (spec 4.4.2 step 4: "clamp the requested velocity
delta to `[−maxAccel, +maxAccel]`"). -/
def Utility.clamp (v lo hi : ℝ) : ℝ :=
  max lo (min v hi)

/-- Python's `%` on floats with a positive modulus: `a - b * ⌊a / b⌋`,
the representative of `a` in `[0, b)` for `b > 0`. -/
def pymod (a b : ℝ) : ℝ :=
  a - b * (⌊a / b⌋ : ℤ)

/-! ## Bezier curve evaluator (`BezierCurves` module, modelled from spec 4.1) -/

/-- Modelled from the spec: `BezierCurves.getBezierPoint t P1 V1 V2 P2`
is the cubic Bezier position at `t` with control points
`{P1, P1+V1, P2+V2, P2}` (spec 4.1; the `BezierCurves` module is not
in `src/`). -/
def getBezierPoint (t : ℝ) (P1 V1 V2 P2 : ℝ × ℝ) : ℝ × ℝ :=
  ((1 - t) ^ 3 * P1.1 + 3 * (1 - t) ^ 2 * t * (P1.1 + V1.1)
      + 3 * (1 - t) * t ^ 2 * (P2.1 + V2.1) + t ^ 3 * P2.1,
   (1 - t) ^ 3 * P1.2 + 3 * (1 - t) ^ 2 * t * (P1.2 + V1.2)
      + 3 * (1 - t) * t ^ 2 * (P2.2 + V2.2) + t ^ 3 * P2.2)

/-- Modelled from the spec: `BezierCurves.getBezierGradient t P1 V1 V2 P2`
is the derivative `(dx/dt, dy/dt)` of that same cubic (spec 4.1),
written in the standard form `3(1-t)²(C1-C0) + 6(1-t)t(C2-C1) + 3t²(C3-C2)`
for control points `C0 = P1`, `C1 = P1+V1`, `C2 = P2+V2`, `C3 = P2`. -/
def getBezierGradient (t : ℝ) (P1 V1 V2 P2 : ℝ × ℝ) : ℝ × ℝ :=
  (3 * (1 - t) ^ 2 * V1.1
      + 6 * (1 - t) * t * (P2.1 + V2.1 - (P1.1 + V1.1))
      + 3 * t ^ 2 * (P2.1 - (P2.1 + V2.1)),
   3 * (1 - t) ^ 2 * V1.2
      + 6 * (1 - t) * t * (P2.2 + V2.2 - (P1.2 + V1.2))
      + 3 * t ^ 2 * (P2.2 - (P2.2 + V2.2)))

/-! ## Pose (`PathStructuresBezier.Pose`) -/

/-- A pose: position, forward tangent offset `(fx, fy)` (from
`setVectorOffset`; the backward vector is its negation by
construction), optional heading, break flag. -/
structure Pose where
  x : ℝ
  y : ℝ
  fx : ℝ
  fy : ℝ
  theta : Option ℝ
  isBreak : Bool

/-- A trajectory point produced by `interpolatePoints`: position plus
the heading written by the theta pass (`none` models a `Point` whose
`theta` attribute was never assigned). -/
structure TrajPoint where
  x : ℝ
  y : ℝ
  theta : Option ℝ

instance : Inhabited TrajPoint := ⟨⟨0, 0, none⟩⟩

/-! ## `Path.interpolateSplineCurve` (lines 333-357) -/

/-- The `while ns < 1` sampling loop of `interpolateSplineCurve`
(lines 348-354): emit the Bezier point at `ns`, advance `ns` by
`segmentDistance / |gradient(ns)|`, repeat while `ns < 1`.  On exit it
returns the emitted points together with the loop-local `(x, y)` (the
last emitted point); if no iteration ran, `x, y` are unbound in Python
(`NameError`), modelled as `none`.  `none` also models fuel
exhaustion. -/
def splineLoop (segD : ℝ) (P1 V1 V2 P2 : ℝ × ℝ) :
    ℕ → ℝ → List (ℝ × ℝ) → Option (List (ℝ × ℝ) × ℝ × ℝ)
  | 0, ns, acc =>
    if ns < 1 then none
    else
      match acc.getLast? with
      | none => none
      | some xy => some (acc, xy.1, xy.2)
  | f + 1, ns, acc =>
    if ns < 1 then
      let xy := getBezierPoint ns P1 V1 V2 P2
      let g := getBezierGradient ns P1 V1 V2 P2
      splineLoop segD P1 V1 V2 P2 f (ns + segD / Utility.hypo g.1 g.2) (acc ++ [xy])
    else
      match acc.getLast? with
      | none => none
      | some xy => some (acc, xy.1, xy.2)

/-- The parametric advance required by the first step of a segment:
`ns = s / |gradient(0)|` (line 343), where `s` is the incoming
spillover.  `V2` is the backward vector of the second pose, i.e. the
negation of its forward vector (`Pose.setVectorOffset`). -/
def firstAdvance (p q : Pose) (s : ℝ) : ℝ :=
  let g := getBezierGradient 0 (p.x, p.y) (p.fx, p.fy) (-q.fx, -q.fy) (q.x, q.y)
  s / Utility.hypo g.1 g.2

/-- `Path.interpolateSplineCurve` for the pose pair `(p, q)` with
incoming spillover `s`: if `s = 0` the loop starts at `ns = 0`;
otherwise at `ns = s / |gradient(0)|`, returning `([], ns - 1)` without
emitting anything when `ns > 1` (line 345-346).  After a normal loop
exit the new spillover is `segmentDistance - distance(lastPoint, P2)`
(line 356). -/
def interpolateSplineCurve (segD : ℝ) (p q : Pose) (s : ℝ) (fuel : ℕ) :
    Option (List (ℝ × ℝ) × ℝ) :=
  let P1 : ℝ × ℝ := (p.x, p.y)
  let V1 : ℝ × ℝ := (p.fx, p.fy)
  let V2 : ℝ × ℝ := (-q.fx, -q.fy)
  let P2 : ℝ × ℝ := (q.x, q.y)
  let ns : ℝ := if s = 0 then 0 else firstAdvance p q s
  if 1 < ns then some ([], ns - 1)
  else
    match splineLoop segD P1 V1 V2 P2 fuel ns [] with
    | none => none
    | some (out, lx, ly) => some (out, segD - Utility.distance lx ly P2.1 P2.2)

/-! ## `Path.interpolateTheta` (lines 360-382)

Anchor indices are integers because the code can produce the index
`len(points) - 1 = -1` on an empty point list.  A write to an index
outside `[0, len)` returns `none` (Python raises `IndexError` there in
every state reachable from `interpolatePoints`; Python's negative-index
wraparound is only reachable in states where the list is empty, where
it also raises). -/

/-- Write `some v` at integer index `i`; `none` when out of range. -/
def setTheta (ts : List (Option ℝ)) (i : ℤ) (v : ℝ) : Option (List (Option ℝ)) :=
  if 0 ≤ i ∧ i.toNat < ts.length then some (ts.set i.toNat (some v)) else none

/-- Write `f base, f (base+1), ..., f (base+count-1)` at indices
`base, ..., base+count-1`, in ascending order. -/
def writeRange (f : ℤ → ℝ) : ℤ → ℕ → List (Option ℝ) → Option (List (Option ℝ))
  | _, 0, ts => some ts
  | base, k + 1, ts =>
    match setTheta ts base (f base) with
    | none => none
    | some ts2 => writeRange f (base + 1) k ts2

/-- The wraparound adjustment of `θ2` against `θ1` (lines 369-373):
subtract `2π` when `θ2 - θ1 ≥ π`, add `2π` when `θ1 - θ2 ≥ π`. -/
def adjustTheta (θ1 θ2 : ℝ) : ℝ :=
  if π ≤ θ2 - θ1 then θ2 - 2 * π
  else if π ≤ θ1 - θ2 then θ2 + 2 * π
  else θ2

/-- The heading written at trajectory index `j` for the anchor pair
`(i1, θ1), (i2, θ2)` (line 375): `θ1 + (θ2adjusted - θ1) · (j-i1)/(i2-i1)`. -/
def lerpTheta (θ1 θ2 : ℝ) (i1 i2 : ℤ) (j : ℤ) : ℝ :=
  θ1 + (adjustTheta θ1 θ2 - θ1) * (((j - i1 : ℤ) : ℝ) / ((i2 - i1 : ℤ) : ℝ))

/-- The inner `for i in range(0, i2-i1+1)` write loop for one anchor
pair.  When `i2 < i1` the range is empty (no writes); when `i2 = i1`
the first iteration divides by the integer `0` (`ZeroDivisionError`),
modelled as `none`. -/
def writePairThetas (θ1 θ2 : ℝ) (i1 i2 : ℤ) (ts : List (Option ℝ)) :
    Option (List (Option ℝ)) :=
  if i2 < i1 then some ts
  else if i2 = i1 then none
  else writeRange (fun j => lerpTheta θ1 θ2 i1 i2 j) i1 (i2 - i1 + 1).toNat ts

/-- The `for ki in range(1, len(knownThetaIndexes))` walk (lines
364-378): process each consecutive anchor pair in order, then return
the final `(i1, theta1)` together with the written list. -/
def thetaPairs (i1 : ℤ) (θ1 : ℝ) :
    List (ℤ × ℝ) → List (Option ℝ) → Option (ℤ × ℝ × List (Option ℝ))
  | [], ts => some (i1, θ1, ts)
  | (i2, θ2) :: rest, ts =>
    match writePairThetas θ1 θ2 i1 i2 ts with
    | none => none
    | some ts2 => thetaPairs i2 θ2 rest ts2

/-- The trailing `for index in range(i1, len(self.points))` fill
(lines 381-382): every point from the last anchor on gets its heading
verbatim. -/
def fillThetas (i1 : ℤ) (θ1 : ℝ) (ts : List (Option ℝ)) : Option (List (Option ℝ)) :=
  writeRange (fun _ => θ1) i1 ((ts.length : ℤ) - i1).toNat ts

/-- `Path.interpolateTheta` on a point list of length `n` whose
headings are all unassigned.  `none` models the `IndexError` on an
empty anchor list (line 362), the `assert i1 == 0` failure (line 363),
and the write errors above. -/
def interpolateTheta (anchors : List (ℤ × ℝ)) (n : ℕ) : Option (List (Option ℝ)) :=
  match anchors with
  | [] => none
  | (i1, θ1) :: rest =>
    if i1 = 0 then
      match thetaPairs i1 θ1 rest (List.replicate n none) with
      | none => none
      | some (iL, θL, ts) => fillThetas iL θL ts
    else none

/-! ## `Path.interpolatePoints` (lines 385-417) -/

/-- The consecutive pose pairs `(poses[i], poses[i+1])`. -/
def posePairs : List Pose → List (Pose × Pose)
  | a :: b :: rest => (a, b) :: posePairs (b :: rest)
  | _ => []

/-- Record a known-heading anchor at the current output length when
the first pose of a segment has a heading (lines 401-403). -/
def appendAnchor (anchors : List (ℤ × ℝ)) (pts : List (ℝ × ℝ)) (p : Pose) :
    List (ℤ × ℝ) :=
  match p.theta with
  | some θ => anchors ++ [((pts.length : ℤ), θ)]
  | none => anchors

/-- The `for i in range(len(self.poses) - 1)` loop of
`interpolatePoints` (lines 395-409), carrying the emitted points, the
anchor list and the spillover `s`: skip coincident pairs, record an
anchor, sample the segment, and force `s = 0` after a break pose. -/
def interpLoop (segD : ℝ) (fuel : ℕ) :
    List (Pose × Pose) → List (ℝ × ℝ) → List (ℤ × ℝ) → ℝ →
    Option (List (ℝ × ℝ) × List (ℤ × ℝ) × ℝ)
  | [], pts, anchors, s => some (pts, anchors, s)
  | (p, q) :: rest, pts, anchors, s =>
    if p.x = q.x ∧ p.y = q.y then interpLoop segD fuel rest pts anchors s
    else
      match interpolateSplineCurve segD p q s fuel with
      | none => none
      | some (newPts, s2) =>
        interpLoop segD fuel rest (pts ++ newPts) (appendAnchor anchors pts p)
          (if q.isBreak then 0 else s2)

/-- Zip positions with the headings written by the theta pass. -/
def assemble (pts : List (ℝ × ℝ)) (thetas : List (Option ℝ)) : List TrajPoint :=
  List.zipWith (fun xy θ => TrajPoint.mk xy.1 xy.2 θ) pts thetas

/-- `Path.interpolatePoints`: empty for fewer than 2 poses (line 391);
otherwise run the segment loop, record the last pose's heading at
index `len(points) - 1` (lines 412-414), and run the theta pass. -/
def interpolatePoints (segD : ℝ) (poses : List Pose) (fuel : ℕ) :
    Option (List TrajPoint) :=
  if poses.length < 2 then some []
  else
    match interpLoop segD fuel (posePairs poses) [] [] 0 with
    | none => none
    | some (pts, anchors, _) =>
      let anchors2 :=
        match poses.getLast? with
        | some pl =>
          match pl.theta with
          | some θ => anchors ++ [(((pts.length : ℤ) - 1), θ)]
          | none => anchors
        | none => anchors
      match interpolateTheta anchors2 pts.length with
      | none => none
      | some thetas => some (assemble pts thetas)

/-- The interpolation-relevant state of a `Path` object: its pose
list, its sampling distance and its current point list. -/
structure PathState where
  poses : List Pose
  segmentDistance : ℝ
  points : List TrajPoint

/-- Running `interpolatePoints` as a state transformer on a `Path`:
the method first clears `self.points` (line 387) and rebuilds it from
`self.poses` and `self.segmentDistance` alone. -/
def runInterpolatePoints (st : PathState) (fuel : ℕ) : Option PathState :=
  match interpolatePoints st.segmentDistance st.poses fuel with
  | none => none
  | some pts => some { st with points := pts }

/-! ## `Robot.py`: constants, curvature pass, controllers -/

/-- 20 millisecond cycle time (`STEP_TIME`). -/
def STEP_TIME : ℝ := 0.02

/-- Translational proportional gain (`K_P_TRANS`). -/
def K_P_TRANS : ℝ := 30

/-- Rotational proportional gain (`K_P_ROT`). -/
def K_P_ROT : ℝ := 1

/-- Stop-distance threshold in inches (`STOP_DISTANCE_THRESHOLD`). -/
def STOP_DISTANCE_THRESHOLD : ℝ := 1

/-- Per-timestep translational acceleration limit (`MAX_TRANS_ACCEL`,
after the `*= 0.02` conversion on line 14). -/
def MAX_TRANS_ACCEL : ℝ := 120 * 0.02

/-- Per-timestep rotational acceleration limit (`MAX_ROT_ACCEL`,
after the `*= 0.02` conversion on line 15). -/
def MAX_ROT_ACCEL : ℝ := 100 * 0.02

/-- Maximum speed in inches per second (`MAX_SPEED`). -/
def MAX_SPEED : ℝ := 60

/-- Hard step ceiling of `computeSimulation` (`MAX_TIMESTEPS`). -/
def MAX_TIMESTEPS : ℕ := 50000

/-- A trajectory point as the robot receives it, before the curvature
pass (`x`, `y`, `theta` attributes of a `Point`). -/
structure PathPoint where
  x : ℝ
  y : ℝ
  theta : ℝ

instance : Inhabited PathPoint := ⟨⟨0, 0, 0⟩⟩

/-- A trajectory point after `startSimulation`'s curvature pass has
written the `curve` attribute. -/
structure CPoint where
  x : ℝ
  y : ℝ
  theta : ℝ
  curve : ℝ

instance : Inhabited CPoint := ⟨⟨0, 0, 0, 0⟩⟩

/-- A `SimulationPoint`: position and heading always present, the
keyword-argument fields only when the constructor received them
(`none` models an attribute that was never set). -/
structure SimPoint where
  x : ℝ
  y : ℝ
  theta : ℝ
  xvel : Option ℝ
  yvel : Option ℝ
  tvel : Option ℝ
  cx : Option ℝ
  cy : Option ℝ
  lx : Option ℝ
  ly : Option ℝ
  curve : Option ℝ

/-- Python's `math.atan2 y x` on exact reals. -/
def atan2 (y x : ℝ) : ℝ :=
  if 0 < x then Real.arctan (y / x)
  else if x < 0 then
    (if 0 ≤ y then Real.arctan (y / x) + π else Real.arctan (y / x) - π)
  else if 0 < y then π / 2
  else if y < 0 then -(π / 2)
  else 0

/-- The curvature the code stores at interior index `i` (lines 43-46):
the angle of the chord `(i-1) → (i+1)` minus the angle of the leg
`(i-1) → i`, corrected downward by `2π` only when it exceeds `π`, in
absolute value. -/
def codeCurvature (pts : List PathPoint) (i : ℕ) : ℝ :=
  let a := atan2 ((pts.getD (i + 1) default).y - (pts.getD (i - 1) default).y)
               ((pts.getD (i + 1) default).x - (pts.getD (i - 1) default).x)
         - atan2 ((pts.getD i default).y - (pts.getD (i - 1) default).y)
               ((pts.getD i default).x - (pts.getD (i - 1) default).x)
  |if π < a then a - 2 * π else a|

/-- The curvature pass of `GenericRobot.startSimulation` (lines
40-46): first and last points get `0`, interior points get
`codeCurvature`.  On an empty list the code's `points[0].curve = 0`
raises `IndexError`, modelled as `none`. -/
def curvatureList (pts : List PathPoint) : Option (List ℝ) :=
  if pts.isEmpty then none
  else
    some ((List.range pts.length).map fun i =>
      if i = 0 ∨ i = pts.length - 1 then 0 else codeCurvature pts i)

/-- Attach the curvature values computed by the pass to the points
(in Python the pass mutates the same `Point` objects in place). -/
def annotate (pts : List PathPoint) : Option (List CPoint) :=
  match curvatureList pts with
  | none => none
  | some cs => some (List.zipWith (fun p c => CPoint.mk p.x p.y p.theta c) pts cs)

/-- `GenericRobot.startSimulation` (lines 37-49), parametric in the
variant's `computeSimulation`: run the curvature pass, compute the
trace, return its length. -/
def startSimulation (computeSim : List CPoint → List SimPoint)
    (pts : List PathPoint) : Option ℕ :=
  (annotate pts).map fun aps => (computeSim aps).length

/-- `IdealRobot.computeSimulation` (lines 97-98): one
`SimulationPoint(p.x, p.y, p.theta)` per trajectory point, with no
keyword arguments, so none of the optional fields are set. -/
def idealComputeSim (pts : List CPoint) : List SimPoint :=
  pts.map fun p =>
    SimPoint.mk p.x p.y p.theta none none none none none none none none

/-! ## `PurePursuitRobot` (lines 100-191) -/

/-- Distance from `(x, y)` to trajectory point `j`. -/
def dAt (pts : List CPoint) (x y : ℝ) (j : ℕ) : ℝ :=
  Utility.distance x y (pts.getD j default).x (pts.getD j default).y

/-- The `while start < end` scan of `findClosestPoint` (lines
118-123), keeping the first index that strictly improves the running
minimum.  The fuel is always chosen larger than `e`, so it never runs
out before `i` reaches `e`. -/
def fcpLoop (pts : List CPoint) (x y : ℝ) (e : ℕ) : ℕ → ℕ → ℕ → ℝ → ℕ
  | 0, _, mi, _ => mi
  | f + 1, i, mi, md =>
    if i < e then
      if dAt pts x y i < md then fcpLoop pts x y e f (i + 1) i (dAt pts x y i)
      else fcpLoop pts x y e f (i + 1) mi md
    else mi

/-- `PurePursuitRobot.findClosestPoint` (lines 110-125): clip the
window to `[max(start, 0), min(end, len(points) - 1))` — note the
`- 1`, which excludes the final trajectory index — take the distance
at the clipped start as the running minimum, and scan the rest. -/
def findClosestPoint (pts : List CPoint) (x y : ℝ) (start e0 : ℕ) : ℕ :=
  let s := max start 0
  let e := min e0 (pts.length - 1)
  fcpLoop pts x y e (pts.length + 1) (s + 1) s (dAt pts x y s)

/-- The `while li < len(points) - 1 and distance(...) < lookahead`
advance (lines 155-156), with fuel `pts.length` (an upper bound on the
number of possible increments, so the fuel never runs out). -/
def advanceLiAux (pts : List CPoint) (la : ℝ) (ci : ℕ) : ℕ → ℕ → ℕ
  | 0, li => li
  | f + 1, li =>
    if li < pts.length - 1 ∧
        Utility.distance (pts.getD li default).x (pts.getD li default).y
          (pts.getD ci default).x (pts.getD ci default).y < la then
      advanceLiAux pts la ci f (li + 1)
    else li

/-- The lookahead-index advance of one pursuit step. -/
def advanceLi (pts : List CPoint) (la : ℝ) (ci li : ℕ) : ℕ :=
  advanceLiAux pts la ci pts.length li

/-- The state carried across pursuit timesteps: position, heading,
velocities, lookahead index `li` and closest index `ci`. -/
structure PState where
  x : ℝ
  y : ℝ
  theta : ℝ
  xvel : ℝ
  yvel : ℝ
  tvel : ℝ
  li : ℕ
  ci : ℕ

/-- One iteration of the `computeSimulation` loop body (lines
151-189), with `nz` the positional noise drawn this step. -/
def pursuitStep (pts : List CPoint) (la : ℝ) (nz : ℝ × ℝ) (st : PState) : PState :=
  let ci := findClosestPoint pts st.x st.y st.ci (st.ci + 30)
  let li := advanceLi pts la ci st.li
  let target := pts.getD li default
  let tx := (target.x - st.x) * K_P_TRANS
  let ty := (target.y - st.y) * K_P_TRANS
  let mag := Utility.hypo tx ty
  let scalar := min 1 (MAX_SPEED / mag)
  let tx2 := tx * scalar
  let ty2 := ty * scalar
  let dth0 := pymod (target.theta - st.theta) (2 * π)
  let dth := if π < dth0 then dth0 - 2 * π else dth0
  let ttv := dth * K_P_ROT
  let xvel := st.xvel + Utility.clamp (tx2 - st.xvel) (-MAX_TRANS_ACCEL) MAX_TRANS_ACCEL
  let yvel := st.yvel + Utility.clamp (ty2 - st.yvel) (-MAX_TRANS_ACCEL) MAX_TRANS_ACCEL
  let tvel := st.tvel + Utility.clamp (ttv - st.tvel) (-MAX_ROT_ACCEL) MAX_ROT_ACCEL
  { x := st.x + xvel * STEP_TIME + nz.1
    y := st.y + yvel * STEP_TIME + nz.2
    theta := st.theta + tvel * STEP_TIME
    xvel := xvel, yvel := yvel, tvel := tvel, li := li, ci := ci }

/-- The `while` guard of `computeSimulation` (line 146). -/
def loopCond (pts : List CPoint) (st : PState) : Prop :=
  st.li ≠ pts.length - 1 ∨
    STOP_DISTANCE_THRESHOLD <
      Utility.distance (pts.getD (pts.length - 1) default).x
        (pts.getD (pts.length - 1) default).y st.x st.y ∨
    5 < |st.xvel| ∨ 5 < |st.yvel| ∨ 5 < |st.tvel|

instance (pts : List CPoint) (st : PState) : Decidable (loopCond pts st) := by
  unfold loopCond; infer_instance

/-- The `computeSimulation` loop (lines 146-189): run at most until
the guard fails or the timestep exceeds `MAX_TIMESTEPS`, recording the
state after each step.  The fuel is chosen above the step ceiling, so
it never runs out first. -/
def pursuitStates (pts : List CPoint) (la : ℝ) (nz : ℕ → ℝ × ℝ) :
    ℕ → ℕ → PState → List PState
  | 0, _, _ => []
  | fuel + 1, t, st =>
    if loopCond pts st ∧ t ≤ MAX_TIMESTEPS then
      pursuitStep pts la (nz t) st ::
        pursuitStates pts la nz fuel (t + 1) (pursuitStep pts la (nz t) st)
    else []

/-- The start state (lines 136-144): the first trajectory point plus
`10 ×` a triangular noise draw on each axis, zero velocities, both
indices `0`. -/
def pursuitInit (pts : List CPoint) (n0 : ℝ × ℝ) : PState :=
  ⟨(pts.getD 0 default).x + 10 * n0.1, (pts.getD 0 default).y + 10 * n0.2,
   (pts.getD 0 default).theta, 0, 0, 0, 0, 0⟩

/-- `PurePursuitRobot.computeSimulation` as a state trace, with the
initial noise pair `n0` and the per-step noise stream `nz` as inputs. -/
def pursuitSim (pts : List CPoint) (la : ℝ) (n0 : ℝ × ℝ) (nz : ℕ → ℝ × ℝ) :
    List PState :=
  pursuitStates pts la nz (MAX_TIMESTEPS + 2) 0 (pursuitInit pts n0)

/-- The `SimulationPoint` recorded for a pursuit state (lines
187-188): position, heading, velocities, the closest and lookahead
target positions and the curvature at the lookahead index. -/
def pursuitComputeSim (pts : List CPoint) (la : ℝ) (n0 : ℝ × ℝ)
    (nz : ℕ → ℝ × ℝ) : List SimPoint :=
  (pursuitSim pts la n0 nz).map fun st =>
    SimPoint.mk st.x st.y st.theta (some st.xvel) (some st.yvel) (some st.tvel)
      (some (pts.getD st.ci default).x) (some (pts.getD st.ci default).y)
      (some (pts.getD st.li default).x) (some (pts.getD st.li default).y)
      (some (pts.getD st.li default).curve)

/-! ## Concrete fixtures and claim-side formulas -/

/-- A pose at the origin with forward tangent `(1, 0)`, no heading, no
break: start of a straight segment of length 3. -/
def poseA : Pose := ⟨0, 0, 1, 0, none, false⟩

/-- A pose at `(3, 0)` with forward tangent `(1, 0)` (so backward
tangent `(-1, 0)`), no heading, marked as a break. -/
def poseB : Pose := ⟨3, 0, 1, 0, none, true⟩

/-- Like `poseB` but with heading `1` and no break. -/
def poseC : Pose := ⟨3, 0, 1, 0, some 1, false⟩

/-- Like `poseA` but with heading `7`. -/
def poseD : Pose := ⟨0, 0, 1, 0, some 7, false⟩

/-- Normalization of an angle in `(-2π, 2π]` into `(-π, π]`, as the
spec's curvature sentence demands (the code only corrects downward). -/
def normPm (a : ℝ) : ℝ :=
  if π < a then a - 2 * π else if a ≤ -π then a + 2 * π else a

/-- The turn angle the claim attributes to the curvature pass: the
angle between the vector `(i-1) → i` and the vector `i → (i+1)`,
normalized into `(-π, π]`, in absolute value. -/
def claimTurn (pts : List PathPoint) (i : ℕ) : ℝ :=
  |normPm (atan2 ((pts.getD (i + 1) default).y - (pts.getD i default).y)
               ((pts.getD (i + 1) default).x - (pts.getD i default).x)
         - atan2 ((pts.getD i default).y - (pts.getD (i - 1) default).y)
               ((pts.getD i default).x - (pts.getD (i - 1) default).x))|

end PathGen

namespace PathGen

/-! ## Evaluation helpers -/

theorem sqrt_nine : Real.sqrt 9 = 3 := by
  rw [show (9 : ℝ) = 3 ^ 2 by norm_num, Real.sqrt_sq (by norm_num : (0 : ℝ) ≤ 3)]

theorem hypo_three_zero : Utility.hypo 3 0 = 3 := by
  rw [Utility.hypo]; norm_num [sqrt_nine]

theorem dist_half : Utility.distance (5 / 2) 0 3 0 = 1 / 2 := by
  rw [Utility.distance,
    show (3 - 5 / 2 : ℝ) ^ 2 + (0 - 0 : ℝ) ^ 2 = (1 / 2) ^ 2 by norm_num,
    Real.sqrt_sq (by norm_num : (0 : ℝ) ≤ 1 / 2)]

theorem dist_one : Utility.distance 2 0 3 0 = 1 := by
  rw [Utility.distance,
    show (3 - 2 : ℝ) ^ 2 + (0 - 0 : ℝ) ^ 2 = 1 ^ 2 by norm_num,
    Real.sqrt_sq (by norm_num : (0 : ℝ) ≤ 1)]

theorem dist_three : Utility.distance 0 0 3 0 = 3 := by
  rw [Utility.distance,
    show (3 - 0 : ℝ) ^ 2 + (0 - 0 : ℝ) ^ 2 = 3 ^ 2 by norm_num,
    Real.sqrt_sq (by norm_num : (0 : ℝ) ≤ 3)]

/-- On the straight configuration `P1 = (0,0)`, `V1 = (1,0)`,
`V2 = (-1,0)`, `P2 = (3,0)` the Bezier is the line `t ↦ (3t, 0)`. -/
theorem bezier_straight_point (t : ℝ) :
    getBezierPoint t (0, 0) (1, 0) (-1, 0) (3, 0) = (3 * t, 0) := by
  unfold getBezierPoint
  refine Prod.ext ?_ ?_ <;> (simp; try ring)

/-- On the same straight configuration the gradient is constantly `(3, 0)`. -/
theorem bezier_straight_gradient (t : ℝ) :
    getBezierGradient t (0, 0) (1, 0) (-1, 0) (3, 0) = (3, 0) := by
  unfold getBezierGradient
  refine Prod.ext ?_ ?_ <;> (simp; try ring)

/-- One iteration of the sampling loop, when `ns < 1`. -/
theorem splineLoop_step (segD : ℝ) (P1 V1 V2 P2 : ℝ × ℝ) (fuel f : ℕ) (ns : ℝ)
    (acc : List (ℝ × ℝ)) (hf : fuel = f + 1) (h : ns < 1) :
    splineLoop segD P1 V1 V2 P2 fuel ns acc =
      splineLoop segD P1 V1 V2 P2 f
        (ns + segD / Utility.hypo (getBezierGradient ns P1 V1 V2 P2).1
          (getBezierGradient ns P1 V1 V2 P2).2)
        (acc ++ [getBezierPoint ns P1 V1 V2 P2]) := by
  subst hf
  rw [splineLoop, if_pos h]

/-- Loop exit: `ns ≥ 1` returns the accumulated points and their last
element. -/
theorem splineLoop_exit (segD : ℝ) (P1 V1 V2 P2 : ℝ × ℝ) (fuel : ℕ) (ns : ℝ)
    (acc : List (ℝ × ℝ)) (xy : ℝ × ℝ) (h : ¬ ns < 1) (hl : acc.getLast? = some xy) :
    splineLoop segD P1 V1 V2 P2 fuel ns acc = some (acc, xy.1, xy.2) := by
  cases fuel with
  | zero => rw [splineLoop, if_neg h, hl]
  | succ f => rw [splineLoop, if_neg h, hl]

/-- The sampling loop on the straight length-3 segment with
`segmentDistance = 5/2`: emits `(0,0)` and `(5/2, 0)` and exits at
`ns = 5/3`. -/
theorem splineLoop_run_25 :
    splineLoop (5 / 2) (0, 0) (1, 0) (-1, 0) (3, 0) 3 0 [] =
      some ([((0 : ℝ), (0 : ℝ)), ((5 / 2 : ℝ), (0 : ℝ))], 5 / 2, 0) := by
  rw [splineLoop_step (5 / 2) (0, 0) (1, 0) (-1, 0) (3, 0) 3 2 0 [] rfl (by norm_num),
    bezier_straight_gradient, bezier_straight_point, hypo_three_zero]
  rw [show (0 : ℝ) + 5 / 2 / 3 = 5 / 6 by norm_num,
    show ((3 * 0 : ℝ), (0 : ℝ)) = ((0 : ℝ), (0 : ℝ)) by norm_num,
    show ([] ++ [((0 : ℝ), (0 : ℝ))]) = [((0 : ℝ), (0 : ℝ))] from rfl]
  rw [splineLoop_step (5 / 2) (0, 0) (1, 0) (-1, 0) (3, 0) 2 1 (5 / 6)
      [((0 : ℝ), (0 : ℝ))] rfl (by norm_num),
    bezier_straight_gradient, bezier_straight_point, hypo_three_zero]
  rw [show (5 / 6 : ℝ) + 5 / 2 / 3 = 5 / 3 by norm_num,
    show ((3 * (5 / 6) : ℝ), (0 : ℝ)) = ((5 / 2 : ℝ), (0 : ℝ)) by norm_num]
  exact splineLoop_exit (5 / 2) (0, 0) (1, 0) (-1, 0) (3, 0) 1 (5 / 3) _
    ((5 / 2 : ℝ), (0 : ℝ)) (by norm_num) rfl

/-- The sampling loop on the straight length-3 segment with
`segmentDistance = 1`: emits `(0,0)`, `(1,0)`, `(2,0)` and exits at
`ns = 1`. -/
theorem splineLoop_run_1 :
    splineLoop 1 (0, 0) (1, 0) (-1, 0) (3, 0) 4 0 [] =
      some ([((0 : ℝ), (0 : ℝ)), ((1 : ℝ), (0 : ℝ)), ((2 : ℝ), (0 : ℝ))], 2, 0) := by
  rw [splineLoop_step 1 (0, 0) (1, 0) (-1, 0) (3, 0) 4 3 0 [] rfl (by norm_num),
    bezier_straight_gradient, bezier_straight_point, hypo_three_zero]
  rw [show ((3 * 0 : ℝ), (0 : ℝ)) = ((0 : ℝ), (0 : ℝ)) by norm_num,
    show ([] ++ [((0 : ℝ), (0 : ℝ))]) = [((0 : ℝ), (0 : ℝ))] from rfl,
    show (0 : ℝ) + 1 / 3 = 1 / 3 by norm_num]
  rw [splineLoop_step 1 (0, 0) (1, 0) (-1, 0) (3, 0) 3 2 (1 / 3)
      [((0 : ℝ), (0 : ℝ))] rfl (by norm_num),
    bezier_straight_gradient, bezier_straight_point, hypo_three_zero]
  rw [show ((3 * (1 / 3) : ℝ), (0 : ℝ)) = ((1 : ℝ), (0 : ℝ)) by norm_num,
    show ([((0 : ℝ), (0 : ℝ))] ++ [((1 : ℝ), (0 : ℝ))]) =
      [((0 : ℝ), (0 : ℝ)), ((1 : ℝ), (0 : ℝ))] from rfl,
    show (1 / 3 : ℝ) + 1 / 3 = 2 / 3 by norm_num]
  rw [splineLoop_step 1 (0, 0) (1, 0) (-1, 0) (3, 0) 2 1 (2 / 3)
      [((0 : ℝ), (0 : ℝ)), ((1 : ℝ), (0 : ℝ))] rfl (by norm_num),
    bezier_straight_gradient, bezier_straight_point, hypo_three_zero]
  rw [show ((3 * (2 / 3) : ℝ), (0 : ℝ)) = ((2 : ℝ), (0 : ℝ)) by norm_num,
    show (2 / 3 : ℝ) + 1 / 3 = 1 by norm_num]
  exact splineLoop_exit 1 (0, 0) (1, 0) (-1, 0) (3, 0) 1 1 _
    ((2 : ℝ), (0 : ℝ)) (by norm_num) rfl

/-- `interpolateSplineCurve` on a straight length-3 pose pair with
`segmentDistance = 5/2` and no spillover: two points, new spillover
`5/2 - 1/2 = 2`. -/
theorem spline_run_25 (p q : Pose) (hx : p.x = 0) (hy : p.y = 0) (hfx : p.fx = 1)
    (hfy : p.fy = 0) (qx : q.x = 3) (qy : q.y = 0) (qfx : q.fx = 1) (qfy : q.fy = 0) :
    interpolateSplineCurve (5 / 2) p q 0 3 =
      some ([((0 : ℝ), (0 : ℝ)), ((5 / 2 : ℝ), (0 : ℝ))], 2) := by
  unfold interpolateSplineCurve
  rw [hx, hy, hfx, hfy, qx, qy, qfx, qfy]
  rw [if_pos rfl, if_neg (by norm_num : ¬ (1 : ℝ) < 0)]
  rw [show ((-(1 : ℝ), -(0 : ℝ))) = ((-1 : ℝ), (0 : ℝ)) by norm_num]
  rw [splineLoop_run_25]
  show some ([((0 : ℝ), (0 : ℝ)), ((5 / 2 : ℝ), (0 : ℝ))],
      (5 / 2 : ℝ) - Utility.distance (5 / 2) 0 3 0) =
    some ([((0 : ℝ), (0 : ℝ)), ((5 / 2 : ℝ), (0 : ℝ))], 2)
  rw [dist_half]
  norm_num

/-- `interpolateSplineCurve` on a straight length-3 pose pair with
`segmentDistance = 1` and no spillover: three points, new spillover
`1 - 1 = 0`. -/
theorem spline_run_1 (p q : Pose) (hx : p.x = 0) (hy : p.y = 0) (hfx : p.fx = 1)
    (hfy : p.fy = 0) (qx : q.x = 3) (qy : q.y = 0) (qfx : q.fx = 1) (qfy : q.fy = 0) :
    interpolateSplineCurve 1 p q 0 4 =
      some ([((0 : ℝ), (0 : ℝ)), ((1 : ℝ), (0 : ℝ)), ((2 : ℝ), (0 : ℝ))], 0) := by
  unfold interpolateSplineCurve
  rw [hx, hy, hfx, hfy, qx, qy, qfx, qfy]
  rw [if_pos rfl, if_neg (by norm_num : ¬ (1 : ℝ) < 0)]
  rw [show ((-(1 : ℝ), -(0 : ℝ))) = ((-1 : ℝ), (0 : ℝ)) by norm_num]
  rw [splineLoop_run_1]
  show some ([((0 : ℝ), (0 : ℝ)), ((1 : ℝ), (0 : ℝ)), ((2 : ℝ), (0 : ℝ))],
      (1 : ℝ) - Utility.distance 2 0 3 0) =
    some ([((0 : ℝ), (0 : ℝ)), ((1 : ℝ), (0 : ℝ)), ((2 : ℝ), (0 : ℝ))], 0)
  rw [dist_one]
  norm_num

/-- The first-step parametric advance on the straight length-3
configuration is `s / |3·V1| = s / 3`. -/
theorem firstAdvance_geom (p q : Pose) (hx : p.x = 0) (hy : p.y = 0)
    (hfx : p.fx = 1) (hfy : p.fy = 0) (qx : q.x = 3) (qy : q.y = 0)
    (qfx : q.fx = 1) (qfy : q.fy = 0) (s : ℝ) :
    firstAdvance p q s = s / 3 := by
  unfold firstAdvance
  rw [hx, hy, hfx, hfy, qx, qy, qfx, qfy,
    show ((-(1 : ℝ), -(0 : ℝ))) = ((-1 : ℝ), (0 : ℝ)) by norm_num,
    bezier_straight_gradient]
  show s / Utility.hypo 3 0 = s / 3
  rw [hypo_three_zero]

/-! ## Claim C10 -/

/-- C10: rebuilding the point list is a pure function of the pose list
and the sampling distance — two `Path` states agreeing on `poses` and
`segmentDistance` (but with arbitrary, possibly different, previous
`points`) produce identical point lists, so re-running the
interpolator on an unchanged pose list reproduces the trajectory
exactly. -/
theorem C10_thm (st1 st2 : PathState) (fuel : ℕ) (hp : st1.poses = st2.poses)
    (hd : st1.segmentDistance = st2.segmentDistance) :
    (runInterpolatePoints st1 fuel).map PathState.points =
      (runInterpolatePoints st2 fuel).map PathState.points := by
  unfold runInterpolatePoints
  rw [hp, hd]

/-- Witness for C10 at two concrete states sharing the pose list `[]`
and distance `1` but with different stale point lists. -/
theorem C10_witness :
    (runInterpolatePoints ⟨[], 1, []⟩ 0).map PathState.points =
      (runInterpolatePoints ⟨[], 1, [⟨5, 5, none⟩]⟩ 0).map PathState.points :=
  C10_thm ⟨[], 1, []⟩ ⟨[], 1, [⟨5, 5, none⟩]⟩ 0 rfl rfl

/-! ## Claim C7 -/

/-- C7 (amended): the ideal controller's trace has exactly one state
point per trajectory point, reproducing position and heading exactly;
its velocity fields are *absent* (the `SimulationPoint` constructor
receives no keyword arguments), not reported as zero. -/
theorem C7_thm (pts : List CPoint) :
    (idealComputeSim pts).length = pts.length ∧
    (idealComputeSim pts).map SimPoint.x = pts.map CPoint.x ∧
    (idealComputeSim pts).map SimPoint.y = pts.map CPoint.y ∧
    (idealComputeSim pts).map SimPoint.theta = pts.map CPoint.theta ∧
    (idealComputeSim pts).map SimPoint.xvel = List.replicate pts.length none ∧
    (idealComputeSim pts).map SimPoint.yvel = List.replicate pts.length none ∧
    (idealComputeSim pts).map SimPoint.tvel = List.replicate pts.length none := by
  simp [idealComputeSim, List.map_map, Function.comp_def, List.map_const']

/-- Counterexample to C7 as stated: on the one-point trajectory
`[(1, 2, θ=3)]` the ideal trace's state point has `xvel` unset
(`none`), not zero — the claim's "all velocity fields reported as
zero" fails. -/
theorem C7_counterexample :
    ∃ sp, (idealComputeSim [CPoint.mk 1 2 3 0]).head? = some sp ∧
      sp.xvel ≠ some 0 := by
  refine ⟨_, rfl, ?_⟩
  simp [idealComputeSim]

/-! ## Claim C8 -/

/-- C8 (amended): `startSimulation` on an empty trajectory *fails*
(the curvature pass's unconditional `points[0].curve = 0` raises
`IndexError`, modelled as `none`); it does not return `0`.  On any
non-empty trajectory it succeeds and returns the length of the
variant's trace. -/
theorem C8_thm :
    (∀ computeSim : List CPoint → List SimPoint,
      startSimulation computeSim [] = none) ∧
    (∀ (computeSim : List CPoint → List SimPoint) (pts : List PathPoint),
      pts ≠ [] → ∃ aps, annotate pts = some aps ∧
        startSimulation computeSim pts = some ((computeSim aps).length)) := by
  constructor
  · intro c
    simp [startSimulation, annotate, curvatureList]
  · intro c pts h
    have hne : pts.isEmpty = false := by
      simpa [List.isEmpty_iff] using h
    exact ⟨List.zipWith (fun p c => CPoint.mk p.x p.y p.theta c) pts
        ((List.range pts.length).map fun i =>
          if i = 0 ∨ i = pts.length - 1 then 0 else codeCurvature pts i),
      by simp [annotate, curvatureList, hne],
      by simp [startSimulation, annotate, curvatureList, hne]⟩

/-- Counterexample to C8 as stated: on the empty trajectory,
`startSimulation` (here with the ideal variant's `computeSimulation`)
returns the error value, not `0`. -/
theorem C8_counterexample :
    startSimulation idealComputeSim ([] : List PathPoint) = none ∧
      startSimulation idealComputeSim ([] : List PathPoint) ≠ some 0 := by
  constructor
  · simp [startSimulation, annotate, curvatureList]
  · simp [startSimulation, annotate, curvatureList]

/-- Witness for C8 (amended) at the ideal variant: the empty
trajectory fails; the one-point trajectory `[(0,0,0)]` succeeds. -/
theorem C8_witness :
    startSimulation idealComputeSim ([] : List PathPoint) = none ∧
      ∃ aps, annotate [PathPoint.mk 0 0 0] = some aps ∧
        startSimulation idealComputeSim [PathPoint.mk 0 0 0] =
          some ((idealComputeSim aps).length) :=
  ⟨C8_thm.1 idealComputeSim, C8_thm.2 idealComputeSim [PathPoint.mk 0 0 0] (by simp)⟩

/-! ## Claim C2 -/

/-- C2 (amended): when the first step's required parametric advance
`ns = s / |gradient(0)|` exceeds `1`, the interpolator emits no point
for the segment and passes on `ns - 1` — the *parametric* overshoot,
not the incoming spillover reduced by the segment's arc length. -/
theorem C2_thm (segD : ℝ) (p q : Pose) (s : ℝ) (fuel : ℕ) (hs : s ≠ 0)
    (h1 : 1 < firstAdvance p q s) :
    interpolateSplineCurve segD p q s fuel = some ([], firstAdvance p q s - 1) := by
  unfold interpolateSplineCurve
  rw [if_neg hs, if_pos h1]

/-- Counterexample to C2 as stated: the pose pair `poseA, poseB` spans
the straight segment from `(0,0)` to `(3,0)` (the Bezier is `t ↦ (3t, 0)`,
so its total arc length is the chord length `3`).  With incoming
spillover `s = 12` the first advance is `12/3 = 4 > 1`; the code
passes on `4 - 1 = 3`, whereas the claim demands
`s - arcLength = 12 - 3 = 9`. -/
theorem C2_counterexample :
    interpolateSplineCurve 1 poseA poseB 12 5 = some ([], 3) ∧
    Utility.distance poseA.x poseA.y poseB.x poseB.y = 3 ∧
    getBezierPoint (1 / 2) (poseA.x, poseA.y) (poseA.fx, poseA.fy)
      (-poseB.fx, -poseB.fy) (poseB.x, poseB.y) = (3 / 2, 0) ∧
    (3 : ℝ) ≠ 12 - 3 := by
  have hfa : firstAdvance poseA poseB 12 = 4 := by
    rw [firstAdvance_geom poseA poseB rfl rfl rfl rfl rfl rfl rfl rfl 12]
    norm_num
  refine ⟨?_, ?_, ?_, by norm_num⟩
  · unfold interpolateSplineCurve
    rw [if_neg (by norm_num : (12 : ℝ) ≠ 0), hfa,
      if_pos (by norm_num : (1 : ℝ) < 4)]
    norm_num
  · show Utility.distance 0 0 3 0 = 3
    exact dist_three
  · show getBezierPoint (1 / 2) (0, 0) (1, 0) (-(1 : ℝ), -(0 : ℝ)) (3, 0) = (3 / 2, 0)
    rw [show ((-(1 : ℝ), -(0 : ℝ))) = ((-1 : ℝ), (0 : ℝ)) by norm_num,
      bezier_straight_point]
    norm_num

/-- Witness for C2 (amended): at `poseA, poseB` with `s = 12` the
first advance is `4 > 1` and the returned pair is `([], 3)`. -/
theorem C2_witness :
    interpolateSplineCurve 1 poseA poseB 12 5 = some ([], 3) := by
  have hfa : firstAdvance poseA poseB 12 = 4 := by
    rw [firstAdvance_geom poseA poseB rfl rfl rfl rfl rfl rfl rfl rfl 12]
    norm_num
  have h := C2_thm 1 poseA poseB 12 5 (by norm_num)
    (by rw [hfa]; norm_num)
  rw [h, hfa]
  norm_num

/-! ## Claim C1 -/

/-- Let-free unfolding of `interpolateSplineCurve`. -/
theorem interpolateSplineCurve_eq (segD : ℝ) (p q : Pose) (s : ℝ) (fuel : ℕ) :
    interpolateSplineCurve segD p q s fuel =
      if 1 < (if s = 0 then 0 else firstAdvance p q s) then
        some ([], (if s = 0 then 0 else firstAdvance p q s) - 1)
      else
        match splineLoop segD (p.x, p.y) (p.fx, p.fy) (-q.fx, -q.fy) (q.x, q.y)
            fuel (if s = 0 then 0 else firstAdvance p q s) [] with
        | none => none
        | some (out, lx, ly) => some (out, segD - Utility.distance lx ly q.x q.y) :=
  rfl

/-- When the sampling loop returns successfully, the reported `(x, y)`
is the last emitted point. -/
theorem splineLoop_last (segD : ℝ) (P1 V1 V2 P2 : ℝ × ℝ) :
    ∀ (fuel : ℕ) (ns : ℝ) (acc out : List (ℝ × ℝ)) (x y : ℝ),
      splineLoop segD P1 V1 V2 P2 fuel ns acc = some (out, x, y) →
      out.getLast? = some (x, y) := by
  intro fuel
  induction fuel with
  | zero =>
    intro ns acc out x y h
    rw [splineLoop] at h
    split at h
    · simp at h
    · cases hl : acc.getLast? with
      | none => rw [hl] at h; simp at h
      | some xy =>
        rw [hl] at h
        simp only [Option.some.injEq, Prod.mk.injEq] at h
        obtain ⟨h1, h2, h3⟩ := h
        rw [← h1, hl, ← h2, ← h3]
  | succ f ih =>
    intro ns acc out x y h
    rw [splineLoop] at h
    split at h
    · exact ih _ _ _ _ _ h
    · cases hl : acc.getLast? with
      | none => rw [hl] at h; simp at h
      | some xy =>
        rw [hl] at h
        simp only [Option.some.injEq, Prod.mk.injEq] at h
        obtain ⟨h1, h2, h3⟩ := h
        rw [← h1, hl, ← h2, ← h3]

/-- `appendAnchor` only appends to the anchor list. -/
theorem appendAnchor_prefix (anchors : List (ℤ × ℝ)) (pts : List (ℝ × ℝ))
    (p : Pose) : ∃ small, appendAnchor anchors pts p = anchors ++ small := by
  cases h : p.theta with
  | none => exact ⟨[], by simp [appendAnchor, h]⟩
  | some θ => exact ⟨[((pts.length : ℤ), θ)], by simp [appendAnchor, h]⟩

/-- The non-early branch of `interpolateSplineCurve`: a successful
result's spillover is `segD` minus the distance from the last emitted
point to `P2`. -/
theorem spline_branch_last (segD : ℝ) (p q : Pose) (ns : ℝ) (fuel : ℕ)
    (pts : List (ℝ × ℝ)) (s2 : ℝ)
    (h : (match splineLoop segD (p.x, p.y) (p.fx, p.fy) (-q.fx, -q.fy) (q.x, q.y)
            fuel ns [] with
          | none => none
          | some (out, lx, ly) =>
            some (out, segD - Utility.distance lx ly q.x q.y)) = some (pts, s2)) :
    ∃ xy : ℝ × ℝ, pts.getLast? = some xy ∧
      s2 = segD - Utility.distance xy.1 xy.2 q.x q.y := by
  cases hsl : splineLoop segD (p.x, p.y) (p.fx, p.fy) (-q.fx, -q.fy) (q.x, q.y)
      fuel ns [] with
  | none => rw [hsl] at h; simp at h
  | some t =>
    obtain ⟨out, x, y⟩ := t
    rw [hsl] at h
    simp only [Option.some.injEq, Prod.mk.injEq] at h
    obtain ⟨h1, h2⟩ := h
    refine ⟨(x, y), ?_, h2.symm⟩
    rw [← h1]
    exact splineLoop_last segD (p.x, p.y) (p.fx, p.fy) (-q.fx, -q.fy)
      (q.x, q.y) fuel ns [] out x y hsl

/-- C1 (amended): after a normal loop exit, the spillover carried into
the next segment is the sampling distance *minus* the Euclidean
distance from the last emitted point to `P2` (line 356), not that
distance itself; and the spillover actually passed to the remaining
pose pairs is forced to `0` whenever the pose at `i+1` has its break
flag set (lines 408-409). -/
theorem C1_thm :
    (∀ (segD : ℝ) (p q : Pose) (s : ℝ) (fuel : ℕ) (pts : List (ℝ × ℝ)) (s2 : ℝ),
      interpolateSplineCurve segD p q s fuel = some (pts, s2) → pts ≠ [] →
      ∃ xy : ℝ × ℝ, pts.getLast? = some xy ∧
        s2 = segD - Utility.distance xy.1 xy.2 q.x q.y) ∧
    (∀ (segD : ℝ) (fuel : ℕ) (p q : Pose) (rest : List (Pose × Pose))
      (pts0 : List (ℝ × ℝ)) (anchors : List (ℤ × ℝ)) (s0 s2 : ℝ)
      (newPts : List (ℝ × ℝ)),
      q.isBreak = true → ¬(p.x = q.x ∧ p.y = q.y) →
      interpolateSplineCurve segD p q s0 fuel = some (newPts, s2) →
      interpLoop segD fuel ((p, q) :: rest) pts0 anchors s0 =
        interpLoop segD fuel rest (pts0 ++ newPts) (appendAnchor anchors pts0 p) 0) := by
  constructor
  · intro segD p q s fuel pts s2 h hne
    rw [interpolateSplineCurve_eq] at h
    split at h
    · split at h
      · simp only [Option.some.injEq, Prod.mk.injEq] at h
        exact absurd h.1.symm hne
      · exact spline_branch_last segD p q 0 fuel pts s2 h
    · split at h
      · simp only [Option.some.injEq, Prod.mk.injEq] at h
        exact absurd h.1.symm hne
      · exact spline_branch_last segD p q (firstAdvance p q s) fuel pts s2 h
  · intro segD fuel p q rest pts0 anchors s0 s2 newPts hbrk hne hsp
    rw [interpLoop, if_neg hne, hsp]
    simp [hbrk]

/-- Counterexample to C1 as stated: on the straight pose pair
`poseA, poseB` with `segmentDistance = 5/2`, the loop's last emitted
point is `(5/2, 0)`, whose distance to `P2 = (3, 0)` is `1/2`; the
spillover the code carries is `2 ≠ 1/2`. -/
theorem C1_counterexample :
    interpolateSplineCurve (5 / 2) poseA poseB 0 3 =
      some ([((0 : ℝ), (0 : ℝ)), ((5 / 2 : ℝ), (0 : ℝ))], 2) ∧
    ([((0 : ℝ), (0 : ℝ)), ((5 / 2 : ℝ), (0 : ℝ))] : List (ℝ × ℝ)).getLast? =
      some (5 / 2, 0) ∧
    Utility.distance (5 / 2) 0 poseB.x poseB.y = 1 / 2 ∧
    (2 : ℝ) ≠ 1 / 2 := by
  refine ⟨spline_run_25 poseA poseB rfl rfl rfl rfl rfl rfl rfl rfl, rfl, ?_,
    by norm_num⟩
  show Utility.distance (5 / 2) 0 3 0 = 1 / 2
  exact dist_half

/-- Witness for C1 (amended): the concrete run above satisfies the
spillover formula, and the break flag of `poseB` forces the spillover
passed to the rest of the pose pairs to `0`. -/
theorem C1_witness :
    (∃ xy : ℝ × ℝ,
      ([((0 : ℝ), (0 : ℝ)), ((5 / 2 : ℝ), (0 : ℝ))] : List (ℝ × ℝ)).getLast? =
        some xy ∧
      (2 : ℝ) = 5 / 2 - Utility.distance xy.1 xy.2 poseB.x poseB.y) ∧
    interpLoop (5 / 2) 3 [(poseA, poseB)] [] [] 0 =
      interpLoop (5 / 2) 3 [] ([] ++ [((0 : ℝ), (0 : ℝ)), ((5 / 2 : ℝ), (0 : ℝ))])
        (appendAnchor [] [] poseA) 0 := by
  constructor
  · exact C1_thm.1 (5 / 2) poseA poseB 0 3 _ 2
      (spline_run_25 poseA poseB rfl rfl rfl rfl rfl rfl rfl rfl) (by simp)
  · exact C1_thm.2 (5 / 2) 3 poseA poseB [] [] [] 0 2 _ rfl
      (by norm_num [poseA, poseB])
      (spline_run_25 poseA poseB rfl rfl rfl rfl rfl rfl rfl rfl)

/-! ## Claim C9 -/

/-- `interpLoop` only ever appends to the anchor list. -/
theorem interpLoop_anchors_prefix (segD : ℝ) (fuel : ℕ) :
    ∀ (pairs : List (Pose × Pose)) (pts : List (ℝ × ℝ))
      (anchors : List (ℤ × ℝ)) (s : ℝ) (pts2 : List (ℝ × ℝ))
      (anchors2 : List (ℤ × ℝ)) (s2 : ℝ),
      interpLoop segD fuel pairs pts anchors s = some (pts2, anchors2, s2) →
      ∃ extra, anchors2 = anchors ++ extra := by
  intro pairs
  induction pairs with
  | nil =>
    intro pts anchors s pts2 anchors2 s2 h
    rw [interpLoop] at h
    simp only [Option.some.injEq, Prod.mk.injEq] at h
    exact ⟨[], by rw [List.append_nil, h.2.1]⟩
  | cons pq rest ih =>
    obtain ⟨p, q⟩ := pq
    intro pts anchors s pts2 anchors2 s2 h
    rw [interpLoop] at h
    split at h
    · exact ih _ _ _ _ _ _ h
    · cases hsp : interpolateSplineCurve segD p q s fuel with
      | none => rw [hsp] at h; simp at h
      | some t =>
        obtain ⟨newPts, ns2⟩ := t
        rw [hsp] at h
        obtain ⟨extra, hex⟩ := ih _ _ _ _ _ _ h
        obtain ⟨small, hsm⟩ := appendAnchor_prefix anchors pts p
        exact ⟨small ++ extra, by rw [hex, hsm, List.append_assoc]⟩

/-- C9 (amended): when the first pose has a set heading *and* the
first pose pair is not coincident (so the segment is not skipped), any
successful run of the segment loop produces an anchor list whose first
entry has trajectory index 0 — the `assert i1 == 0` of the heading
pass then holds.  (Without these two extra conditions the claim fails,
see the counterexample.) -/
theorem C9_thm (segD : ℝ) (fuel : ℕ) (p0 p1 : Pose) (rest : List Pose) (θ : ℝ)
    (hθ : p0.theta = some θ) (hne : ¬(p0.x = p1.x ∧ p0.y = p1.y))
    (pts : List (ℝ × ℝ)) (anchors : List (ℤ × ℝ)) (s : ℝ)
    (hrun : interpLoop segD fuel (posePairs (p0 :: p1 :: rest)) [] [] 0 =
      some (pts, anchors, s)) :
    anchors.head? = some (0, θ) := by
  rw [posePairs, interpLoop, if_neg hne] at hrun
  cases hsp : interpolateSplineCurve segD p0 p1 0 fuel with
  | none => rw [hsp] at hrun; simp at hrun
  | some t =>
    obtain ⟨newPts, s2⟩ := t
    rw [hsp] at hrun
    obtain ⟨extra, hex⟩ := interpLoop_anchors_prefix segD fuel _ _ _ _ _ _ _ hrun
    rw [hex]
    simp [appendAnchor, hθ]

/-- Counterexample to C9 as stated: the pose list `[poseA, poseC]`
(first pose has *no* heading, last pose heading `1`) yields the
non-empty trajectory `[(0,0), (1,0), (2,0)]`, but its only
known-heading anchor sits at index `2 ≠ 0`, so the heading pass's
assertion fails and the interpolator aborts (`none`). -/
theorem C9_counterexample :
    interpLoop 1 4 (posePairs [poseA, poseC]) [] [] 0 =
      some ([((0 : ℝ), (0 : ℝ)), ((1 : ℝ), (0 : ℝ)), ((2 : ℝ), (0 : ℝ))], [], 0) ∧
    interpolatePoints 1 [poseA, poseC] 4 = none := by
  have h1 : interpLoop 1 4 (posePairs [poseA, poseC]) [] [] 0 =
      some ([((0 : ℝ), (0 : ℝ)), ((1 : ℝ), (0 : ℝ)), ((2 : ℝ), (0 : ℝ))], [], 0) := by
    show interpLoop 1 4 [(poseA, poseC)] [] [] 0 = _
    rw [interpLoop,
      if_neg (by norm_num [poseA, poseC] : ¬(poseA.x = poseC.x ∧ poseA.y = poseC.y)),
      spline_run_1 poseA poseC rfl rfl rfl rfl rfl rfl rfl rfl]
    show interpLoop 1 4 []
        ([] ++ [((0 : ℝ), (0 : ℝ)), ((1 : ℝ), (0 : ℝ)), ((2 : ℝ), (0 : ℝ))])
        (appendAnchor [] [] poseA) (if poseC.isBreak then 0 else 0) = _
    rw [interpLoop]
    simp [appendAnchor, poseA, poseC]
  refine ⟨h1, ?_⟩
  unfold interpolatePoints
  rw [if_neg (by simp : ¬ ([poseA, poseC].length < 2)), h1]
  simp [poseC, interpolateTheta]

/-- Witness for C9 (amended): with a first pose carrying heading `7`
and distinct first two positions, the produced anchor list starts with
`(0, 7)`. -/
theorem C9_witness :
    interpLoop (5 / 2) 3 (posePairs [poseD, poseB]) [] [] 0 =
      some ([((0 : ℝ), (0 : ℝ)), ((5 / 2 : ℝ), (0 : ℝ))], [((0 : ℤ), (7 : ℝ))], 0) ∧
    ([((0 : ℤ), (7 : ℝ))] : List (ℤ × ℝ)).head? = some (0, 7) := by
  have h1 : interpLoop (5 / 2) 3 (posePairs [poseD, poseB]) [] [] 0 =
      some ([((0 : ℝ), (0 : ℝ)), ((5 / 2 : ℝ), (0 : ℝ))],
        [((0 : ℤ), (7 : ℝ))], 0) := by
    show interpLoop (5 / 2) 3 [(poseD, poseB)] [] [] 0 = _
    rw [interpLoop,
      if_neg (by norm_num [poseD, poseB] : ¬(poseD.x = poseB.x ∧ poseD.y = poseB.y)),
      spline_run_25 poseD poseB rfl rfl rfl rfl rfl rfl rfl rfl]
    show interpLoop (5 / 2) 3 []
        ([] ++ [((0 : ℝ), (0 : ℝ)), ((5 / 2 : ℝ), (0 : ℝ))])
        (appendAnchor [] [] poseD) (if poseB.isBreak then 0 else 2) = _
    rw [interpLoop]
    simp [appendAnchor, poseD, poseB]
  exact ⟨h1, C9_thm (5 / 2) 3 poseD poseB [] 7 rfl
    (by norm_num [poseD, poseB]) _ _ _ h1⟩

/-! ## Claim C5 -/

/-- Invariant of the `while start < end` scan: the result is either
the incoming minimum index or lies in `[i, e)`, its distance is at
most the running minimum, and it is at most the distance of every
index in `[i, e)`. -/
theorem fcpLoop_spec (pts : List CPoint) (x y : ℝ) (e : ℕ) :
    ∀ (f i mi : ℕ) (md : ℝ), e ≤ i + f → md = dAt pts x y mi →
      (fcpLoop pts x y e f i mi md = mi ∨
        (i ≤ fcpLoop pts x y e f i mi md ∧ fcpLoop pts x y e f i mi md < e)) ∧
      dAt pts x y (fcpLoop pts x y e f i mi md) ≤ md ∧
      ∀ j, i ≤ j → j < e → dAt pts x y (fcpLoop pts x y e f i mi md) ≤ dAt pts x y j := by
  intro f
  induction f with
  | zero =>
    intro i mi md hf hmd
    rw [fcpLoop]
    refine ⟨Or.inl rfl, le_of_eq hmd.symm, ?_⟩
    intro j hij hje
    exact absurd hje (by omega)
  | succ f ih =>
    intro i mi md hf hmd
    rw [fcpLoop]
    by_cases hie : i < e
    · rw [if_pos hie]
      by_cases hd : dAt pts x y i < md
      · rw [if_pos hd]
        obtain ⟨hmem, hle, hall⟩ := ih (i + 1) i (dAt pts x y i) (by omega) rfl
        refine ⟨?_, hle.trans hd.le, ?_⟩
        · rcases hmem with hr | hr
          · exact Or.inr ⟨hr.ge, by omega⟩
          · exact Or.inr ⟨by omega, hr.2⟩
        · intro j hij hje
          rcases eq_or_lt_of_le hij with rfl | hj
          · exact hle
          · exact hall j (by omega) hje
      · rw [if_neg hd]
        obtain ⟨hmem, hle, hall⟩ := ih (i + 1) mi md (by omega) hmd
        refine ⟨?_, hle, ?_⟩
        · rcases hmem with hr | hr
          · exact Or.inl hr
          · exact Or.inr ⟨by omega, hr.2⟩
        · intro j hij hje
          rcases eq_or_lt_of_le hij with rfl | hj
          · exact hle.trans (not_lt.mp hd)
          · exact hall j (by omega) hje
    · rw [if_neg hie]
      refine ⟨Or.inl rfl, le_of_eq hmd.symm, ?_⟩
      intro j hij hje
      exact absurd hje (by omega)

/-- C5 (amended): the closest-point search examines the start index
`ci` together with the window `[ci+1, min(ci+30, len-1))` — the right
edge is clipped to `len - 1`, which *excludes the final trajectory
index* — and returns an examined index whose distance is minimal among
the examined ones (ties keep the earliest). -/
theorem C5_thm (pts : List CPoint) (x y : ℝ) (start e0 : ℕ)
    (h : start < pts.length) :
    ∃ r, findClosestPoint pts x y start e0 = r ∧
      (r = start ∨ (start + 1 ≤ r ∧ r < min e0 (pts.length - 1))) ∧
      ∀ j, start ≤ j → j < min e0 (pts.length - 1) →
        dAt pts x y r ≤ dAt pts x y j := by
  have hspec := fcpLoop_spec pts x y (min e0 (pts.length - 1)) (pts.length + 1)
    (start + 1) start (dAt pts x y start) (by omega) rfl
  have hfc : findClosestPoint pts x y start e0 =
      fcpLoop pts x y (min e0 (pts.length - 1)) (pts.length + 1) (start + 1)
        start (dAt pts x y start) := by
    unfold findClosestPoint
    rw [Nat.max_zero]
  refine ⟨_, hfc, ?_, ?_⟩
  · rcases hspec.1 with hr | hr
    · exact Or.inl hr
    · exact Or.inr hr
  · intro j hj hje
    rcases eq_or_lt_of_le hj with rfl | hj2
    · exact hspec.2.1
    · exact hspec.2.2 j (by omega) hje

/-- Counterexample to C5 as stated: on a 2-point trajectory with the
robot sitting exactly on the *last* point, the search from `ci = 0`
examines only index 0 (the window is clipped to `len - 1 = 1`, not to
`len = 2`) and returns 0, although index 1 — inside the claim's window
`[0, 30) ∩ [0, len)` — is strictly closer. -/
theorem C5_counterexample :
    findClosestPoint [CPoint.mk 10 0 0 0, CPoint.mk 0 0 0 0] 0 0 0 30 = 0 ∧
    1 < min (0 + 30) ([CPoint.mk 10 0 0 0, CPoint.mk 0 0 0 0].length) ∧
    dAt [CPoint.mk 10 0 0 0, CPoint.mk 0 0 0 0] 0 0 1 <
      dAt [CPoint.mk 10 0 0 0, CPoint.mk 0 0 0 0] 0 0 0 := by
  refine ⟨?_, by norm_num, ?_⟩
  · show fcpLoop [CPoint.mk 10 0 0 0, CPoint.mk 0 0 0 0] 0 0 1 (2 + 1) (0 + 1) 0
        (dAt [CPoint.mk 10 0 0 0, CPoint.mk 0 0 0 0] 0 0 0) = 0
    rw [fcpLoop, if_neg (by norm_num : ¬ (0 + 1 < 1))]
  · show Utility.distance 0 0
        (([CPoint.mk 10 0 0 0, CPoint.mk 0 0 0 0].getD 1 default).x)
        (([CPoint.mk 10 0 0 0, CPoint.mk 0 0 0 0].getD 1 default).y) <
      Utility.distance 0 0
        (([CPoint.mk 10 0 0 0, CPoint.mk 0 0 0 0].getD 0 default).x)
        (([CPoint.mk 10 0 0 0, CPoint.mk 0 0 0 0].getD 0 default).y)
    show Utility.distance 0 0 0 0 < Utility.distance 0 0 10 0
    unfold Utility.distance
    rw [show ((0 : ℝ) - 0) ^ 2 + ((0 : ℝ) - 0) ^ 2 = 0 by norm_num,
      Real.sqrt_zero]
    exact Real.sqrt_pos.mpr (by norm_num)

/-- Witness for C5 (amended) on a 3-point trajectory from position
`(0, 0)` with `ci = 0`. -/
theorem C5_witness :
    ∃ r, findClosestPoint [CPoint.mk 0 0 0 0, CPoint.mk 5 0 0 0, CPoint.mk 1 1 0 0]
        0 0 0 30 = r ∧
      (r = 0 ∨ (0 + 1 ≤ r ∧
        r < min 30 ([CPoint.mk 0 0 0 0, CPoint.mk 5 0 0 0, CPoint.mk 1 1 0 0].length - 1))) ∧
      ∀ j, 0 ≤ j →
        j < min 30 ([CPoint.mk 0 0 0 0, CPoint.mk 5 0 0 0, CPoint.mk 1 1 0 0].length - 1) →
        dAt [CPoint.mk 0 0 0 0, CPoint.mk 5 0 0 0, CPoint.mk 1 1 0 0] 0 0 r ≤
          dAt [CPoint.mk 0 0 0 0, CPoint.mk 5 0 0 0, CPoint.mk 1 1 0 0] 0 0 j :=
  C5_thm [CPoint.mk 0 0 0 0, CPoint.mk 5 0 0 0, CPoint.mk 1 1 0 0] 0 0 0 30
    (by simp)

/-! ## Claim C6 -/

/-- The lookahead advance never decreases `li`. -/
theorem advanceLiAux_ge (pts : List CPoint) (la : ℝ) (ci : ℕ) :
    ∀ f li, li ≤ advanceLiAux pts la ci f li := by
  intro f
  induction f with
  | zero => intro li; rw [advanceLiAux]
  | succ f ih =>
    intro li
    rw [advanceLiAux]
    by_cases hc : li < pts.length - 1 ∧
        Utility.distance (pts.getD li default).x (pts.getD li default).y
          (pts.getD ci default).x (pts.getD ci default).y < la
    · rw [if_pos hc]
      exact le_trans (Nat.le_succ li) (ih (li + 1))
    · rw [if_neg hc]

/-- The lookahead advance never exceeds the final trajectory index. -/
theorem advanceLiAux_le (pts : List CPoint) (la : ℝ) (ci : ℕ) :
    ∀ f li, li ≤ pts.length - 1 →
      advanceLiAux pts la ci f li ≤ pts.length - 1 := by
  intro f
  induction f with
  | zero => intro li h; rw [advanceLiAux]; exact h
  | succ f ih =>
    intro li h
    rw [advanceLiAux]
    by_cases hc : li < pts.length - 1 ∧
        Utility.distance (pts.getD li default).x (pts.getD li default).y
          (pts.getD ci default).x (pts.getD ci default).y < la
    · rw [if_pos hc]
      exact ih (li + 1) (by omega)
    · rw [if_neg hc]
      exact h

/-- The `li` stored by one pursuit step. -/
theorem pursuitStep_li (pts : List CPoint) (la : ℝ) (nz : ℝ × ℝ) (st : PState) :
    (pursuitStep pts la nz st).li =
      advanceLi pts la (findClosestPoint pts st.x st.y st.ci (st.ci + 30)) st.li :=
  rfl

/-- Run invariant: from any state whose `li` is within bounds, the
`li` values along the trace are non-decreasing and bounded by the
final trajectory index. -/
theorem pursuitStates_li (pts : List CPoint) (la : ℝ) (nz : ℕ → ℝ × ℝ) :
    ∀ (fuel t : ℕ) (st : PState), st.li ≤ pts.length - 1 →
      List.Chain' (fun a b => a ≤ b)
        (st.li :: (pursuitStates pts la nz fuel t st).map PState.li) ∧
      ∀ s ∈ pursuitStates pts la nz fuel t st, s.li ≤ pts.length - 1 := by
  intro fuel
  induction fuel with
  | zero =>
    intro t st h
    rw [pursuitStates]
    exact ⟨by simp, by simp⟩
  | succ f ih =>
    intro t st h
    rw [pursuitStates]
    by_cases hc : loopCond pts st ∧ t ≤ MAX_TIMESTEPS
    · rw [if_pos hc]
      have hge : st.li ≤ (pursuitStep pts la (nz t) st).li := by
        rw [pursuitStep_li]
        exact advanceLiAux_ge pts la _ pts.length st.li
      have hle : (pursuitStep pts la (nz t) st).li ≤ pts.length - 1 := by
        rw [pursuitStep_li]
        exact advanceLiAux_le pts la _ pts.length st.li h
      obtain ⟨hch, hall⟩ := ih (t + 1) (pursuitStep pts la (nz t) st) hle
      constructor
      · rw [List.map_cons, List.chain'_cons]
        exact ⟨hge, hch⟩
      · intro s hs
        rcases List.mem_cons.mp hs with rfl | hs2
        · exact hle
        · exact hall s hs2
    · rw [if_neg hc]
      exact ⟨by simp, by simp⟩

/-- C6: across every pursuit simulation run — for any trajectory, any
lookahead radius and any noise draws — the lookahead index `li` starts
at 0, is monotonically non-decreasing from step to step, and never
exceeds the final trajectory index. -/
theorem C6_thm (pts : List CPoint) (la : ℝ) (n0 : ℝ × ℝ) (nz : ℕ → ℝ × ℝ)
    (_h : pts ≠ []) :
    List.Chain' (fun a b => a ≤ b)
      ((pursuitInit pts n0).li :: (pursuitSim pts la n0 nz).map PState.li) ∧
    ∀ st ∈ pursuitSim pts la n0 nz, st.li ≤ pts.length - 1 := by
  unfold pursuitSim
  exact pursuitStates_li pts la nz (MAX_TIMESTEPS + 2) 0 (pursuitInit pts n0)
    (Nat.zero_le _)

/-- Witness for C6 on the one-point trajectory `[(0,0,0)]` with
lookahead `30` and zero noise. -/
theorem C6_witness :
    List.Chain' (fun a b => a ≤ b)
      ((pursuitInit [CPoint.mk 0 0 0 0] (0, 0)).li ::
        (pursuitSim [CPoint.mk 0 0 0 0] 30 (0, 0) fun _ => (0, 0)).map PState.li) ∧
    ∀ st ∈ pursuitSim [CPoint.mk 0 0 0 0] 30 (0, 0) fun _ => (0, 0),
      st.li ≤ [CPoint.mk 0 0 0 0].length - 1 :=
  C6_thm [CPoint.mk 0 0 0 0] 30 (0, 0) (fun _ => (0, 0)) (by simp)

/-! ## Claim C4 -/

theorem atan2_zero_one : atan2 0 1 = 0 := by
  unfold atan2
  rw [if_pos (by norm_num : (0 : ℝ) < 1)]
  norm_num

theorem atan2_one_one : atan2 1 1 = π / 4 := by
  unfold atan2
  rw [if_pos (by norm_num : (0 : ℝ) < 1)]
  norm_num [Real.arctan_one]

theorem atan2_one_zero : atan2 1 0 = π / 2 := by
  unfold atan2
  rw [if_neg (by norm_num : ¬ (0 : ℝ) < 0), if_neg (by norm_num : ¬ (0 : ℝ) < 0),
    if_pos (by norm_num : (0 : ℝ) < 1)]

/-- The curvature the code stores at the corner of the right-angle
path `(0,0) → (1,0) → (1,1)` is `π/4` (the chord direction is 45°). -/
theorem codeCurvature_corner :
    codeCurvature [PathPoint.mk 0 0 0, PathPoint.mk 1 0 0, PathPoint.mk 1 1 0] 1 =
      π / 4 := by
  unfold codeCurvature
  rw [show (1 : ℕ) - 1 = 0 from rfl]
  simp only [List.getD_cons_zero, List.getD_cons_succ]
  rw [show (1 : ℝ) - 0 = 1 by norm_num, show (0 : ℝ) - 0 = 0 by norm_num,
    atan2_one_one, atan2_zero_one]
  rw [if_neg (by intro hlt; nlinarith [Real.pi_pos] : ¬ π < π / 4 - 0)]
  rw [show π / 4 - 0 = π / 4 by ring]
  exact abs_of_nonneg (by positivity)

/-- The turn angle the claim specifies at the same corner is `π/2`
(the leg `(1,0) → (1,1)` points straight up). -/
theorem claimTurn_corner :
    claimTurn [PathPoint.mk 0 0 0, PathPoint.mk 1 0 0, PathPoint.mk 1 1 0] 1 =
      π / 2 := by
  unfold claimTurn
  rw [show (1 : ℕ) - 1 = 0 from rfl]
  simp only [List.getD_cons_zero, List.getD_cons_succ]
  rw [show (1 : ℝ) - 1 = 0 by norm_num, show (1 : ℝ) - 0 = 1 by norm_num,
    show (0 : ℝ) - 0 = 0 by norm_num, atan2_one_zero, atan2_zero_one]
  rw [show π / 2 - 0 = π / 2 by ring]
  unfold normPm
  rw [if_neg (by intro hlt; nlinarith [Real.pi_pos] : ¬ π < π / 2),
    if_neg (by intro hle; nlinarith [Real.pi_pos] : ¬ π / 2 ≤ -π)]
  exact abs_of_nonneg (by positivity)

/-- Counterexample to C4 as stated: on the path
`(0,0) → (1,0) → (1,1)` the code stores curvature `π/4` at the corner
(it measures the chord `(i-1) → (i+1)` against the leg `(i-1) → i`),
while the claim's turn angle between `(i-1) → i` and `i → (i+1)` is
`π/2`. -/
theorem C4_counterexample :
    curvatureList [PathPoint.mk 0 0 0, PathPoint.mk 1 0 0, PathPoint.mk 1 1 0] =
      some [0, π / 4, 0] ∧
    claimTurn [PathPoint.mk 0 0 0, PathPoint.mk 1 0 0, PathPoint.mk 1 1 0] 1 =
      π / 2 ∧
    (π / 4 : ℝ) ≠ π / 2 := by
  refine ⟨?_, claimTurn_corner, ?_⟩
  · unfold curvatureList
    rw [if_neg (by simp)]
    rw [show List.range
        ([PathPoint.mk 0 0 0, PathPoint.mk 1 0 0, PathPoint.mk 1 1 0].length) =
      [0, 1, 2] from rfl]
    simp [codeCurvature_corner]
  · intro heq
    have := Real.pi_pos
    linarith

/-- C4 (amended): the curvature pass writes `0` at the first and last
points and, at each interior point `i`, the absolute value of
`atan2(p[i+1] - p[i-1]) - atan2(p[i] - p[i-1])` — the *chord*
direction `(i-1) → (i+1)` against the leg `(i-1) → i`, not the two
legs — corrected downward by `2π` only when it exceeds `π` (the
normalization is one-sided).  The result depends only on the point
positions, never on headings. -/
theorem C4_thm (pts : List PathPoint) (h : pts ≠ []) :
    ∃ l, curvatureList pts = some l ∧ l.length = pts.length ∧
      l[0]? = some 0 ∧ l[pts.length - 1]? = some 0 ∧
      (∀ i, 0 < i → i + 1 < pts.length → l[i]? = some (codeCurvature pts i)) ∧
      ∀ pts2 : List PathPoint,
        pts.map (fun p => (p.x, p.y)) = pts2.map (fun p => (p.x, p.y)) →
        curvatureList pts = curvatureList pts2 := by
  have hne : pts.isEmpty = false := by
    simpa [List.isEmpty_iff] using h
  have hpos : 0 < pts.length := List.length_pos.mpr h
  refine ⟨(List.range pts.length).map fun i =>
      if i = 0 ∨ i = pts.length - 1 then 0 else codeCurvature pts i,
    ?_, by simp, ?_, ?_, ?_, ?_⟩
  · unfold curvatureList
    rw [if_neg (by simp [hne])]
  · rw [List.getElem?_map, List.getElem?_range hpos]
    simp
  · rw [List.getElem?_map, List.getElem?_range (by omega)]
    simp
  · intro i h0 h1
    rw [List.getElem?_map, List.getElem?_range (by omega)]
    simp only [Option.map_some']
    rw [if_neg (by omega)]
  · intro pts2 hmap
    have hlen : pts.length = pts2.length := by
      simpa using congrArg List.length hmap
    have hco : ∀ j, (pts.getD j default).x = (pts2.getD j default).x ∧
        (pts.getD j default).y = (pts2.getD j default).y := by
      intro j
      have h1 := congrArg (fun l => l[j]?) hmap
      simp only [List.getElem?_map] at h1
      by_cases hj : j < pts.length
      · have e1 : pts[j]? = some pts[j] := List.getElem?_eq_getElem hj
        have e2 : pts2[j]? = some (pts2.get ⟨j, by omega⟩) :=
          List.getElem?_eq_getElem (by omega)
        rw [e1, e2] at h1
        simp only [Option.map_some', Option.some.injEq, Prod.mk.injEq] at h1
        rw [List.getD_eq_getElem?_getD, List.getD_eq_getElem?_getD, e1, e2]
        exact ⟨h1.1, h1.2⟩
      · have e1 : pts[j]? = none := List.getElem?_eq_none (by omega)
        have e2 : pts2[j]? = none := List.getElem?_eq_none (by omega)
        rw [List.getD_eq_getElem?_getD, List.getD_eq_getElem?_getD, e1, e2]
        exact ⟨rfl, rfl⟩
    have hne2 : pts2.isEmpty = false := by
      have : pts2 ≠ [] := by
        intro e
        rw [e] at hlen
        simp only [List.length_nil] at hlen
        exact h (List.eq_nil_of_length_eq_zero hlen)
      simpa [List.isEmpty_iff] using this
    unfold curvatureList
    rw [if_neg (by simp [hne]), if_neg (by simp [hne2]), hlen]
    refine congrArg some (List.map_congr_left ?_)
    intro i _
    by_cases hi : i = 0 ∨ i = pts2.length - 1
    · rw [if_pos hi, if_pos hi]
    · rw [if_neg hi, if_neg hi]
      unfold codeCurvature
      rw [(hco (i + 1)).1, (hco (i + 1)).2, (hco i).1, (hco i).2,
        (hco (i - 1)).1, (hco (i - 1)).2]

/-- Witness for C4 (amended) on the one-point trajectory `[(0,0,0)]`. -/
theorem C4_witness :
    ∃ l, curvatureList [PathPoint.mk 0 0 0] = some l ∧
      l.length = [PathPoint.mk 0 0 0].length ∧
      l[0]? = some 0 ∧ l[[PathPoint.mk 0 0 0].length - 1]? = some 0 ∧
      (∀ i, 0 < i → i + 1 < [PathPoint.mk 0 0 0].length →
        l[i]? = some (codeCurvature [PathPoint.mk 0 0 0] i)) ∧
      ∀ pts2 : List PathPoint,
        [PathPoint.mk 0 0 0].map (fun p => (p.x, p.y)) =
          pts2.map (fun p => (p.x, p.y)) →
        curvatureList [PathPoint.mk 0 0 0] = curvatureList pts2 :=
  C4_thm [PathPoint.mk 0 0 0] (by simp)

/-! ## Claim C3 -/

/-- An in-range checked write succeeds. -/
theorem setTheta_eq (ts : List (Option ℝ)) (i : ℤ) (v : ℝ) (h0 : 0 ≤ i)
    (h1 : i.toNat < ts.length) :
    setTheta ts i v = some (ts.set i.toNat (some v)) := by
  unfold setTheta
  rw [if_pos ⟨h0, h1⟩]

/-- `writeRange f base count` succeeds when all indices are in range,
and the result holds `f j` at each written index `j ∈ [base, base+count)`
and is untouched elsewhere. -/
theorem writeRange_spec (f : ℤ → ℝ) :
    ∀ (count : ℕ) (base : ℤ) (ts : List (Option ℝ)), 0 ≤ base →
      base.toNat + count ≤ ts.length →
      ∃ ts2, writeRange f base count ts = some ts2 ∧ ts2.length = ts.length ∧
        ∀ j : ℕ, ts2[j]? =
          if base ≤ (j : ℤ) ∧ (j : ℤ) < base + (count : ℤ)
          then some (some (f (j : ℤ))) else ts[j]? := by
  intro count
  induction count with
  | zero =>
    intro base ts h0 hlen
    refine ⟨ts, by rw [writeRange], rfl, ?_⟩
    intro j
    rw [if_neg (by omega)]
  | succ k ih =>
    intro base ts h0 hlen
    have hset : setTheta ts base (f base) = some (ts.set base.toNat (some (f base))) :=
      setTheta_eq ts base (f base) h0 (by omega)
    obtain ⟨ts2, hw, hl, hj⟩ := ih (base + 1) (ts.set base.toNat (some (f base)))
      (by omega) (by simp only [List.length_set]; omega)
    refine ⟨ts2, ?_, by rw [hl]; simp, ?_⟩
    · rw [writeRange, hset]
      exact hw
    · intro j
      rw [hj j]
      by_cases hcase : base ≤ (j : ℤ) ∧ (j : ℤ) < base + ((k + 1 : ℕ) : ℤ)
      · rw [if_pos hcase]
        by_cases hj1 : base + 1 ≤ (j : ℤ) ∧ (j : ℤ) < base + 1 + ((k : ℕ) : ℤ)
        · rw [if_pos hj1]
        · rw [if_neg hj1, List.getElem?_set]
          rw [if_pos (by omega : base.toNat = j), if_pos (by omega : base.toNat < ts.length)]
          have hjb : base = (j : ℤ) := by omega
          rw [hjb]
      · rw [if_neg hcase,
          if_neg (by omega : ¬ (base + 1 ≤ (j : ℤ) ∧ (j : ℤ) < base + 1 + ((k : ℕ) : ℤ))),
          List.getElem?_set, if_neg (by omega : ¬ base.toNat = j)]

/-- The write loop for one anchor pair `(i1, θ1), (i2, θ2)` with
`i1 < i2` and both in range: every index in `[i1, i2]` receives the
interpolated heading, everything else is untouched. -/
theorem writePair_spec (θ1 θ2 : ℝ) (i1 i2 : ℤ) (ts : List (Option ℝ))
    (hlt : i1 < i2) (h0 : 0 ≤ i1) (h2 : i2 < (ts.length : ℤ)) :
    ∃ ts2, writePairThetas θ1 θ2 i1 i2 ts = some ts2 ∧ ts2.length = ts.length ∧
      ∀ j : ℕ, ts2[j]? =
        if i1 ≤ (j : ℤ) ∧ (j : ℤ) ≤ i2 then some (some (lerpTheta θ1 θ2 i1 i2 j))
        else ts[j]? := by
  obtain ⟨ts2, hw, hl, hj⟩ := writeRange_spec (fun j => lerpTheta θ1 θ2 i1 i2 j)
    (i2 - i1 + 1).toNat i1 ts h0 (by omega)
  refine ⟨ts2, ?_, hl, ?_⟩
  · unfold writePairThetas
    rw [if_neg (by omega), if_neg (by omega)]
    exact hw
  · intro j
    rw [hj j]
    by_cases hc : i1 ≤ (j : ℤ) ∧ (j : ℤ) ≤ i2
    · rw [if_pos (by omega), if_pos hc]
    · rw [if_neg (by omega), if_neg hc]

/-- The trailing fill writes the last heading at every index from the
last anchor to the end. -/
theorem fillThetas_spec (iL : ℤ) (θL : ℝ) (ts : List (Option ℝ)) (h0 : 0 ≤ iL)
    (hlt : iL < (ts.length : ℤ)) :
    ∃ ts2, fillThetas iL θL ts = some ts2 ∧ ts2.length = ts.length ∧
      ∀ j : ℕ, ts2[j]? =
        if iL ≤ (j : ℤ) ∧ (j : ℤ) < (ts.length : ℤ) then some (some θL)
        else ts[j]? := by
  obtain ⟨ts2, hw, hl, hj⟩ := writeRange_spec (fun _ => θL)
    ((ts.length : ℤ) - iL).toNat iL ts h0 (by omega)
  refine ⟨ts2, by unfold fillThetas; exact hw, hl, ?_⟩
  intro j
  rw [hj j]
  by_cases hc : iL ≤ (j : ℤ) ∧ (j : ℤ) < (ts.length : ℤ)
  · rw [if_pos (by omega), if_pos hc]
  · rw [if_neg (by omega), if_neg hc]

/-- In a strictly increasing anchor list, the head's index is below
every later index. -/
theorem chain_lt_mem :
    ∀ (a : ℤ × ℝ) (rest : List (ℤ × ℝ)),
      List.Chain' (fun p q : ℤ × ℝ => p.1 < q.1) (a :: rest) →
      ∀ b ∈ rest, a.1 < b.1 := by
  intro a rest
  induction rest generalizing a with
  | nil => intro _ b hb; simp at hb
  | cons c rs ih =>
    intro hch b hb
    rw [List.chain'_cons] at hch
    rcases List.mem_cons.mp hb with rfl | hb2
    · exact hch.1
    · exact lt_trans hch.1 (ih c hch.2 b hb2)

/-- In a strictly increasing anchor list, every index is at most the
last one. -/
theorem chain_le_getLast :
    ∀ (L : List (ℤ × ℝ)),
      List.Chain' (fun p q : ℤ × ℝ => p.1 < q.1) L →
      ∀ lastEl, L.getLast? = some lastEl → ∀ a ∈ L, a.1 ≤ lastEl.1 := by
  intro L
  induction L with
  | nil => intro _ lastEl hl; simp at hl
  | cons a rest ih =>
    intro hch lastEl hl b hb
    cases rest with
    | nil =>
      simp only [List.getLast?_singleton, Option.some.injEq] at hl
      rcases List.mem_singleton.mp hb with rfl
      rw [hl]
    | cons c rs =>
      rw [List.getLast?_cons_cons] at hl
      rcases List.mem_cons.mp hb with rfl | hb2
      · have hmem0 : lastEl ∈ (c :: rs).getLast? := by
          rw [Option.mem_def]
          exact hl
        obtain ⟨hne2, heq2⟩ := List.mem_getLast?_eq_getLast hmem0
        have hmem : lastEl ∈ c :: rs := by
          rw [heq2]
          exact List.getLast_mem hne2
        exact le_of_lt (chain_lt_mem b (c :: rs) hch lastEl hmem)
      · exact ih (List.chain'_cons.mp hch).2 lastEl hl b hb2

/-- The anchor-pair walk of `interpolateTheta`: for a strictly
increasing anchor list starting at `(i1, θ1)` with all indices inside
the point list, the walk succeeds, returns the last anchor, leaves
indices below `i1` untouched, and writes the pairwise interpolated
heading at every index between consecutive anchors (the later pair's
write wins at a shared endpoint). -/
theorem thetaPairs_spec (n : ℕ) :
    ∀ (rest : List (ℤ × ℝ)) (i1 : ℤ) (θ1 : ℝ) (ts : List (Option ℝ)),
      ts.length = n → 0 ≤ i1 → i1 < (n : ℤ) →
      List.Chain' (fun p q : ℤ × ℝ => p.1 < q.1) ((i1, θ1) :: rest) →
      (∀ a ∈ rest, a.1 < (n : ℤ)) →
      ∃ ts2 iL θL, thetaPairs i1 θ1 rest ts = some (iL, θL, ts2) ∧
        ((i1, θ1) :: rest).getLast? = some (iL, θL) ∧
        ts2.length = n ∧
        (∀ j : ℕ, (j : ℤ) < i1 → ts2[j]? = ts[j]?) ∧
        (∀ k, ∀ hk : k + 1 < ((i1, θ1) :: rest).length, ∀ j : ℕ,
          (((i1, θ1) :: rest).get ⟨k, Nat.lt_of_succ_lt hk⟩).1 ≤ (j : ℤ) →
          (j : ℤ) < (((i1, θ1) :: rest).get ⟨k + 1, hk⟩).1 →
          ts2[j]? = some (some (lerpTheta
            (((i1, θ1) :: rest).get ⟨k, Nat.lt_of_succ_lt hk⟩).2
            (((i1, θ1) :: rest).get ⟨k + 1, hk⟩).2
            (((i1, θ1) :: rest).get ⟨k, Nat.lt_of_succ_lt hk⟩).1
            (((i1, θ1) :: rest).get ⟨k + 1, hk⟩).1 j))) := by
  intro rest
  induction rest with
  | nil =>
    intro i1 θ1 ts hts h0 hn hch hr
    refine ⟨ts, i1, θ1, by rw [thetaPairs], rfl, hts, fun j _ => rfl, ?_⟩
    intro k hk
    exfalso
    simp only [List.length_singleton] at hk
    omega
  | cons a rs ih =>
    obtain ⟨i2, θ2⟩ := a
    intro i1 θ1 ts hts h0 hn hch hr
    have h12 : i1 < i2 := (List.chain'_cons.mp hch).1
    have hch2 : List.Chain' (fun p q : ℤ × ℝ => p.1 < q.1) ((i2, θ2) :: rs) :=
      (List.chain'_cons.mp hch).2
    have h2n : i2 < (n : ℤ) := hr (i2, θ2) (List.mem_cons_self _ _)
    obtain ⟨ts1, hw1, hl1, hj1⟩ := writePair_spec θ1 θ2 i1 i2 ts h12 h0
      (by rw [hts]; exact h2n)
    obtain ⟨ts2, iL, θL, heq2, hlast2, hlen2, hbelow2, hpairs2⟩ :=
      ih i2 θ2 ts1 (hl1.trans hts) (by omega) h2n hch2
        (fun b hb => hr b (List.mem_cons_of_mem _ hb))
    refine ⟨ts2, iL, θL, ?_, ?_, hlen2, ?_, ?_⟩
    · rw [thetaPairs, hw1]
      exact heq2
    · rw [List.getLast?_cons_cons]
      exact hlast2
    · intro j hj
      rw [hbelow2 j (by omega), hj1 j, if_neg (by omega)]
    · intro k hk j hjlo hjhi
      cases k with
      | zero =>
        have hjlo2 : i1 ≤ (j : ℤ) := hjlo
        have hjhi2 : (j : ℤ) < i2 := hjhi
        show ts2[j]? = some (some (lerpTheta θ1 θ2 i1 i2 j))
        rw [hbelow2 j hjhi2, hj1 j, if_pos ⟨hjlo2, by omega⟩]
      | succ k2 =>
        exact hpairs2 k2 (Nat.lt_of_succ_lt_succ hk) j hjlo hjhi

/-- C3 (amended): for a strictly increasing anchor list starting at
index 0 with all indices in range, the heading pass succeeds, and
(a) between consecutive anchors `(i1, θ1), (i2, θ2)`, every point with
index in `[i1, i2)` gets exactly the linear interpolation toward the
*adjusted* `θ2` (`lerpTheta`; at `j = i1` this is `θ1` itself — each
anchor point keeps its own unadjusted heading, because the following
pair or the trailing fill overwrites the pair's endpoint);
(b) every point from the last anchor on gets that anchor's heading
verbatim; and
(c) whenever `|θ2 - θ1| < 2π`, the adjustment satisfies
`|θ2adjusted - θ1| ≤ π` — only *non-strictly*: when the gap is exactly
`π` both directions are `π` and the code picks `θ2 - 2π`. -/
theorem C3_thm (θ0 : ℝ) (rest : List (ℤ × ℝ)) (n : ℕ)
    (hchain : List.Chain' (fun p q : ℤ × ℝ => p.1 < q.1) (((0 : ℤ), θ0) :: rest))
    (hrange : ∀ a ∈ rest, a.1 < (n : ℤ)) (hn : 0 < n) :
    ∃ ts iL θL,
      (((0 : ℤ), θ0) :: rest).getLast? = some (iL, θL) ∧
      interpolateTheta (((0 : ℤ), θ0) :: rest) n = some ts ∧
      ts.length = n ∧
      (∀ k, ∀ hk : k + 1 < (((0 : ℤ), θ0) :: rest).length, ∀ j : ℕ,
        ((((0 : ℤ), θ0) :: rest).get ⟨k, Nat.lt_of_succ_lt hk⟩).1 ≤ (j : ℤ) →
        (j : ℤ) < ((((0 : ℤ), θ0) :: rest).get ⟨k + 1, hk⟩).1 →
        ts[j]? = some (some (lerpTheta
          ((((0 : ℤ), θ0) :: rest).get ⟨k, Nat.lt_of_succ_lt hk⟩).2
          ((((0 : ℤ), θ0) :: rest).get ⟨k + 1, hk⟩).2
          ((((0 : ℤ), θ0) :: rest).get ⟨k, Nat.lt_of_succ_lt hk⟩).1
          ((((0 : ℤ), θ0) :: rest).get ⟨k + 1, hk⟩).1 j))) ∧
      (∀ j : ℕ, iL ≤ (j : ℤ) → j < n → ts[j]? = some (some θL)) ∧
      (∀ θ1 θ2 : ℝ, |θ2 - θ1| < 2 * π → |adjustTheta θ1 θ2 - θ1| ≤ π) := by
  obtain ⟨ts1, iL, θL, hrun, hlast, hlen1, _hbelow, hpairs⟩ :=
    thetaPairs_spec n rest 0 θ0 (List.replicate n none) (by simp) le_rfl
      (by exact_mod_cast hn) hchain hrange
  have hmem : (iL, θL) ∈ ((0 : ℤ), θ0) :: rest := by
    have hmem0 : (iL, θL) ∈ ((((0 : ℤ), θ0) :: rest)).getLast? := by
      rw [Option.mem_def]
      exact hlast
    obtain ⟨hne2, heq2⟩ := List.mem_getLast?_eq_getLast hmem0
    rw [heq2]
    exact List.getLast_mem hne2
  have h0iL : 0 ≤ iL := by
    rcases List.mem_cons.mp hmem with heq | hmem2
    · have : iL = 0 := congrArg Prod.fst heq
      omega
    · have := chain_lt_mem ((0 : ℤ), θ0) rest hchain (iL, θL) hmem2
      omega
  have hiLn : iL < (n : ℤ) := by
    rcases List.mem_cons.mp hmem with heq | hmem2
    · have : iL = 0 := congrArg Prod.fst heq
      omega
    · exact hrange (iL, θL) hmem2
  obtain ⟨ts2, hfill, hlen2, hj2⟩ := fillThetas_spec iL θL ts1 h0iL
    (by rw [hlen1]; exact hiLn)
  have hle : ∀ a ∈ ((0 : ℤ), θ0) :: rest, a.1 ≤ iL :=
    fun a ha => chain_le_getLast _ hchain (iL, θL) hlast a ha
  refine ⟨ts2, iL, θL, hlast, ?_, by rw [hlen2, hlen1], ?_, ?_, ?_⟩
  · show (if (0 : ℤ) = 0 then
        match thetaPairs 0 θ0 rest (List.replicate n none) with
        | none => none
        | some (iL, θL, ts) => fillThetas iL θL ts
      else none) = some ts2
    rw [if_pos rfl, hrun]
    exact hfill
  · intro k hk j hjlo hjhi
    have hup : ((((0 : ℤ), θ0) :: rest).get ⟨k + 1, hk⟩) ∈ ((0 : ℤ), θ0) :: rest :=
      List.get_mem _ _ _
    have hle2 : ((((0 : ℤ), θ0) :: rest).get ⟨k + 1, hk⟩).1 ≤ iL := hle _ hup
    rw [hj2 j, if_neg (by omega)]
    exact hpairs k hk j hjlo hjhi
  · intro j hjlo hjn
    rw [hj2 j, if_pos ⟨hjlo, by rw [hlen1]; exact_mod_cast hjn⟩]
  · intro θ1 θ2 hd
    have hd2 := abs_lt.mp hd
    unfold adjustTheta
    by_cases h1 : π ≤ θ2 - θ1
    · rw [if_pos h1, abs_le]
      constructor <;> nlinarith [Real.pi_pos]
    · rw [if_neg h1]
      by_cases h2 : π ≤ θ1 - θ2
      · rw [if_pos h2, abs_le]
        constructor <;> nlinarith [Real.pi_pos]
      · rw [if_neg h2, abs_le]
        constructor <;> nlinarith [Real.pi_pos]

/-- The adjustment at a gap of exactly `π`: heading `-π/2` to `π/2`
adjusts `π/2` down to `π/2 - 2π`. -/
theorem adjust_pi_tie : adjustTheta (-(π / 2)) (π / 2) = π / 2 - 2 * π := by
  unfold adjustTheta
  simp only [show (π / 2 : ℝ) - -(π / 2) = π from by ring]
  rw [if_pos le_rfl]

theorem lerp_tie_zero : lerpTheta (-(π / 2)) (π / 2) 0 2 0 = -(π / 2) := by
  unfold lerpTheta
  rw [adjust_pi_tie]
  push_cast
  ring

theorem lerp_tie_one : lerpTheta (-(π / 2)) (π / 2) 0 2 1 = -π := by
  unfold lerpTheta
  rw [adjust_pi_tie]
  push_cast
  ring

/-- Counterexample to C3 as stated: anchors `(0, -π/2)` and `(2, π/2)`
on a 3-point trajectory.  The heading gap is exactly `π`, so *no*
choice `θ2' ∈ {θ2, θ2 ± 2π}` satisfies the claimed strict bound
`|θ2' − θ1| < π`; the code adjusts to `π/2 - 2π` (gap `-π`) and
interpolates through `-π` at the midpoint. -/
theorem C3_counterexample :
    interpolateTheta [((0 : ℤ), -(π / 2)), ((2 : ℤ), π / 2)] 3 =
      some [some (-(π / 2)), some (-π), some (π / 2)] ∧
    ¬ ∃ θA : ℝ, (θA = π / 2 ∨ θA = π / 2 + 2 * π ∨ θA = π / 2 - 2 * π) ∧
      |θA - -(π / 2)| < π := by
  constructor
  · rw [show interpolateTheta [((0 : ℤ), -(π / 2)), ((2 : ℤ), π / 2)] 3 =
        some [some (lerpTheta (-(π / 2)) (π / 2) 0 2 0),
          some (lerpTheta (-(π / 2)) (π / 2) 0 2 1), some (π / 2)] from rfl,
      lerp_tie_zero, lerp_tie_one]
  · rintro ⟨θA, hch, habs⟩
    rcases hch with rfl | rfl | rfl
    · rw [show (π / 2 : ℝ) - -(π / 2) = π from by ring,
        abs_of_pos Real.pi_pos] at habs
      exact lt_irrefl π habs
    · rw [show (π / 2 + 2 * π : ℝ) - -(π / 2) = 3 * π from by ring] at habs
      rw [abs_of_pos (by positivity)] at habs
      nlinarith [Real.pi_pos]
    · rw [show (π / 2 - 2 * π : ℝ) - -(π / 2) = -π from by ring, abs_neg,
        abs_of_pos Real.pi_pos] at habs
      exact lt_irrefl π habs

/-- Witness for C3 (amended) at anchors `(0, 0)` and `(2, 1)` on a
4-point trajectory: index 1 gets the interpolated heading, index 3 the
flat-extrapolated one. -/
theorem C3_witness :
    ∃ ts, interpolateTheta [((0 : ℤ), (0 : ℝ)), ((2 : ℤ), (1 : ℝ))] 4 = some ts ∧
      ts.length = 4 ∧ ts[1]? = some (some (lerpTheta 0 1 0 2 1)) ∧
      ts[3]? = some (some 1) := by
  obtain ⟨ts, iL, θL, hlast, heq, hlen, hpairs, hflat, _⟩ :=
    C3_thm 0 [((2 : ℤ), (1 : ℝ))] 4
      (by
        rw [List.chain'_cons]
        exact ⟨by norm_num, List.chain'_singleton _⟩)
      (by
        intro a ha
        rcases List.mem_singleton.mp ha with rfl
        decide)
      (by norm_num)
  rw [show ([((0 : ℤ), (0 : ℝ)), ((2 : ℤ), (1 : ℝ))] : List (ℤ × ℝ)).getLast? =
      some ((2 : ℤ), (1 : ℝ)) from rfl] at hlast
  have hpair := Option.some.inj hlast
  have hiL : (2 : ℤ) = iL := congrArg Prod.fst hpair
  have hθL : (1 : ℝ) = θL := congrArg Prod.snd hpair
  refine ⟨ts, heq, hlen, ?_, ?_⟩
  · exact hpairs 0 (by norm_num) 1 (by decide) (by decide)
  · have := hflat 3 (by rw [← hiL]; decide) (by norm_num)
    rw [← hθL] at this
    exact this

end PathGen
